import Mathlib

/-!
Verification of the RGAAudit audit core: a shallow embedding of the
criterion mapper (`mapping/mapper.ts`), the data-collector shapes
(`analyzer/data-collector.ts`) and the audit worker pool
(`analyzer/analyzer.ts`), together with theorems checking the
natural-language specification against this embedding.

Conventions of the embedding:
* TypeScript `null`/`undefined` become `Option`.
* JavaScript truthiness on `string | null` is made explicit: `null` and
  the empty string are falsy.
* `Map`/`Record` objects become association lists with JavaScript
  insertion-order semantics (setting an existing key keeps its position,
  new keys are appended).
* The module-level catalog loaded by `loadMapping()` becomes an explicit
  `RgaaMapping` argument. `loadMapping` itself only does file IO and
  caching and is not modelled.
-/

/-- One DOM element reported by the rule engine (`AxeElement`). -/
structure AxeElement where
  html : String
  target : List String
deriving Repr, DecidableEq

/-- A violation finding from the rule engine (`AxeViolation`). -/
structure AxeViolation where
  rule : String
  impact : String
  description : String
  helpUrl : String
  elements : List AxeElement
deriving Repr, DecidableEq

/-- A passing finding from the rule engine (`AxePass`). -/
structure AxePass where
  rule : String
  description : String
  elements : List AxeElement
deriving Repr, DecidableEq

/-- An incomplete finding from the rule engine (`AxeIncomplete`). -/
structure AxeIncomplete where
  rule : String
  impact : String
  description : String
  elements : List AxeElement
deriving Repr, DecidableEq

/-- A successful engine analysis (`EngineResult`). -/
structure EngineResult where
  violations : List AxeViolation
  passes : List AxePass
  incomplete : List AxeIncomplete
deriving Repr, DecidableEq

/-- `AnalyzeResult = EngineResult | EngineError`: either findings or an
engine-level error string. -/
inductive AnalyzeResult where
  | ok (result : EngineResult)
  | engineError (error : String)
deriving Repr, DecidableEq

/-- A heading flag is either a plain string or a structured
`{ flag, skipFrom, skipTo }` object (`HeadingData.flags`). -/
inductive HeadingFlag where
  | plain (flag : String)
  | levelSkip (flag : String) (skipFrom : Nat) (skipTo : Nat)
deriving Repr, DecidableEq

/-- `typeof flag === 'string' ? flag : flag.flag` from `extractElements`. -/
def HeadingFlag.name : HeadingFlag → String
  | .plain f => f
  | .levelSkip f _ _ => f

/-- Structured image evidence (`ImageData`). -/
structure ImageData where
  selector : String
  tagName : String
  src : String
  altAttribute : Option String
  altStatus : String
  ariaLabel : Option String
  ariaLabelledby : Option String
  rolePresentation : Bool
  surroundingText : String
  parentFigcaption : Option String
  isInLink : Bool
  linkHref : Option String
  linkText : Option String
  axeViolations : List String
  automatedStatus : String
  flags : List String
  screenshotPath : Option String
deriving Repr, DecidableEq

/-- Structured link evidence (`LinkData`). -/
structure LinkData where
  selector : String
  tagName : String
  accessibleLabel : Option String
  href : Option String
  opensNewWindow : Bool
  hasNewWindowWarning : Bool
  flags : List String
deriving Repr, DecidableEq

/-- One heading in the heading tree (`HeadingData`). -/
structure HeadingData where
  level : Nat
  text : String
  selector : String
  flags : List HeadingFlag
deriving Repr, DecidableEq

/-- The heading tree with document title and page-level flags
(`HeadingTree`). -/
structure HeadingTree where
  documentTitle : String
  headings : List HeadingData
  flags : List String
deriving Repr, DecidableEq

/-- Structured DOM evidence produced by the data collector
(`CollectedData`). -/
structure CollectedData where
  images : List ImageData
  links : List LinkData
  headings : HeadingTree
deriving Repr, DecidableEq

/-- The `rgaa` sub-object of a catalog criterion. -/
structure RgaaRef where
  id : String
  title : String
  theme : String
deriving Repr, DecidableEq

/-- One catalog criterion (`RgaaCriterion`); `heuristicPatterns` is a
string-keyed record of string lists. -/
structure RgaaCriterion where
  rgaa : RgaaRef
  wcag : List String
  axeRules : List String
  evaluationStrategy : String
  dataCollectorFlags : List String
  heuristicPatterns : List (String × List String)
  altMaxLength : Option Nat
  limits : String
deriving Repr, DecidableEq

/-- The loaded criterion catalog (`RgaaMapping`). -/
structure RgaaMapping where
  version : String
  criteria : List RgaaCriterion
deriving Repr, DecidableEq

/-- Classification statuses (`CriterionStatus`), string literals in the
source. -/
inductive CriterionStatus where
  | violation
  | pass
  | manual
  | incomplete
deriving Repr, DecidableEq

/-- A `{ selector, flags }` entry of `MappedCriterion.elements`. -/
structure MappedElement where
  selector : String
  flags : List String
deriving Repr, DecidableEq

/-- Per-page classification of one criterion (`MappedCriterion`). -/
structure MappedCriterion where
  rgaaId : String
  title : String
  theme : String
  status : CriterionStatus
  violations : List AxeViolation
  incompletes : List AxeIncomplete
  elements : List MappedElement
  notes : String
  manualChecks : List String
deriving Repr, DecidableEq

/-- Per-page classification of the whole catalog (`MappedPage`). -/
structure MappedPage where
  url : String
  criteria : List MappedCriterion
deriving Repr, DecidableEq

/-- Whole-audit aggregate for one criterion (`AggregatedCriterion`). -/
structure AggregatedCriterion where
  rgaaId : String
  title : String
  theme : String
  status : CriterionStatus
  pagesViolating : List String
  pagesPass : List String
  pagesManual : List String
  pagesIncomplete : List String
deriving Repr, DecidableEq

/-- A ranked issue (`TopIssue`). -/
structure TopIssue where
  rgaaId : String
  title : String
  pagesAffected : Nat
deriving Repr, DecidableEq

/-- The aggregation output (`AuditReportSummary`). -/
structure AuditReportSummary where
  totalCriteria : Nat
  automated : Nat
  violations : Nat
  passes : Nat
  manual : Nat
  incomplete : Nat
  topIssues : List TopIssue
  criteria : List AggregatedCriterion
deriving Repr, DecidableEq

/-- The `base` record shared by every branch of `mapCriterion`, completed
with the branch-dependent fields. -/
def mkMapped (criterion : RgaaCriterion) (status : CriterionStatus)
    (violations : List AxeViolation) (incompletes : List AxeIncomplete)
    (elements : List MappedElement) : MappedCriterion :=
  { rgaaId := criterion.rgaa.id
    title := criterion.rgaa.title
    theme := criterion.rgaa.theme
    notes := criterion.limits
    manualChecks := criterion.dataCollectorFlags
    status := status
    violations := violations
    incompletes := incompletes
    elements := elements }

/-- `extractElements`: collect image, link and heading evidence elements
whose flags intersect the criterion's `dataCollectorFlags`; page-level
heading flags are appended once under the selector `"document"`. -/
def extractElements (criterion : RgaaCriterion) (collectedData : Option CollectedData) :
    List MappedElement :=
  match collectedData with
  | none => []
  | some cd =>
    let relevantFlags := criterion.dataCollectorFlags
    let imageEls := cd.images.filterMap (fun img =>
      let matchingFlags := img.flags.filter (fun f => relevantFlags.contains f)
      if matchingFlags.length > 0 then
        some { selector := img.selector, flags := matchingFlags }
      else none)
    let linkEls := cd.links.filterMap (fun link =>
      let matchingFlags := link.flags.filter (fun f => relevantFlags.contains f)
      if matchingFlags.length > 0 then
        some { selector := link.selector, flags := matchingFlags }
      else none)
    let headingEls := cd.headings.headings.flatMap (fun h =>
      h.flags.filterMap (fun fl =>
        if relevantFlags.contains fl.name then
          some { selector := h.selector, flags := [fl.name] }
        else none))
    let els := imageEls ++ linkEls ++ headingEls
    cd.headings.flags.foldl (fun acc flag =>
      if relevantFlags.contains flag then
        if acc.any (fun e => e.flags.contains flag) then acc
        else acc ++ [{ selector := "document", flags := [flag] }]
      else acc) els

/-- `mapAnyViolation`: violation wins, then incomplete, then pass. -/
def mapAnyViolation (criterion : RgaaCriterion) (result : EngineResult)
    (elements : List MappedElement) : MappedCriterion :=
  let violations := result.violations.filter (fun v => criterion.axeRules.contains v.rule)
  let incompletes := result.incomplete.filter (fun i => criterion.axeRules.contains i.rule)
  let status : CriterionStatus :=
    if violations.length > 0 then .violation
    else if incompletes.length > 0 then .incomplete
    else .pass
  mkMapped criterion status violations incompletes elements

/-- `mapAllPass`: violation wins; otherwise pass only when every rule of
the criterion appears among the passes; otherwise incomplete. -/
def mapAllPass (criterion : RgaaCriterion) (result : EngineResult)
    (elements : List MappedElement) : MappedCriterion :=
  let violations := result.violations.filter (fun v => criterion.axeRules.contains v.rule)
  let incompletes := result.incomplete.filter (fun i => criterion.axeRules.contains i.rule)
  if violations.length > 0 then
    mkMapped criterion .violation violations incompletes elements
  else
    let allPass := criterion.axeRules.all (fun rule => result.passes.any (fun p => p.rule == rule))
    if allPass then mkMapped criterion .pass [] incompletes elements
    else mkMapped criterion .incomplete [] incompletes elements

/-- `mapCriterion`: strategy dispatch with the manual fallbacks of the
source (manual-only strategy, absent or errored engine result, unknown
strategy). -/
def mapCriterion (criterion : RgaaCriterion) (axeResults : Option AnalyzeResult)
    (collectedData : Option CollectedData) : MappedCriterion :=
  if criterion.evaluationStrategy == "MANUAL_ONLY" then
    mkMapped criterion .manual [] [] (extractElements criterion collectedData)
  else
    match axeResults with
    | none => mkMapped criterion .manual [] [] (extractElements criterion collectedData)
    | some (.engineError _) =>
      mkMapped criterion .manual [] [] (extractElements criterion collectedData)
    | some (.ok engineResult) =>
      let elements := extractElements criterion collectedData
      if criterion.evaluationStrategy == "ANY_VIOLATION" then
        mapAnyViolation criterion engineResult elements
      else if criterion.evaluationStrategy == "ALL_PASS" then
        mapAllPass criterion engineResult elements
      else
        mkMapped criterion .manual [] [] elements

/-- `mapPageResults`: map every catalog criterion for one page. -/
def mapPageResults (mapping : RgaaMapping) (axeResults : Option AnalyzeResult)
    (collectedData : Option CollectedData) (url : String) : MappedPage :=
  { url := url
    criteria := mapping.criteria.map (fun c => mapCriterion c axeResults collectedData) }

/-- A fresh aggregate entry with status defaulting to pass
(initialisation loop of `aggregateResults`). -/
def initAggregated (criterion : RgaaCriterion) : AggregatedCriterion :=
  { rgaaId := criterion.rgaa.id
    title := criterion.rgaa.title
    theme := criterion.rgaa.theme
    status := .pass
    pagesViolating := []
    pagesPass := []
    pagesManual := []
    pagesIncomplete := [] }

/-- JavaScript `Map.set` on an association list keyed by `rgaaId`:
overwriting keeps the position, a new key is appended. -/
def criteriaMapSet (m : List AggregatedCriterion) (e : AggregatedCriterion) :
    List AggregatedCriterion :=
  if m.any (fun x => x.rgaaId == e.rgaaId) then
    m.map (fun x => if x.rgaaId == e.rgaaId then e else x)
  else m ++ [e]

/-- Initialise one aggregate entry per catalog criterion. -/
def initCriteriaMap (mapping : RgaaMapping) : List AggregatedCriterion :=
  mapping.criteria.foldl (fun m c => criteriaMapSet m (initAggregated c)) []

/-- Append a page url to the page set matching a per-page status
(the `switch` of the aggregation loop). -/
def pushPageStatus (agg : AggregatedCriterion) (status : CriterionStatus) (url : String) :
    AggregatedCriterion :=
  match status with
  | .violation => { agg with pagesViolating := agg.pagesViolating ++ [url] }
  | .pass => { agg with pagesPass := agg.pagesPass ++ [url] }
  | .manual => { agg with pagesManual := agg.pagesManual ++ [url] }
  | .incomplete => { agg with pagesIncomplete := agg.pagesIncomplete ++ [url] }

/-- Fold one page's classifications into the criteria map. The map holds
at most one entry per `rgaaId` (it is built by `criteriaMapSet`), so the
in-place mutation of `criteriaMap.get(...)` is the `rgaaId`-keyed
rewrite below; an id absent from the map is skipped (`continue`). -/
def foldPageIntoMap (m : List AggregatedCriterion) (page : MappedPage) :
    List AggregatedCriterion :=
  page.criteria.foldl (fun acc c =>
    acc.map (fun e => if e.rgaaId == c.rgaaId then pushPageStatus e c.status page.url else e)) m

/-- Final status resolution of `aggregateResults`: violation, else
incomplete, else manual when manual pages exist and no page passes, else
pass when pass pages exist, else manual. -/
def resolveStatus (agg : AggregatedCriterion) : AggregatedCriterion :=
  { agg with status :=
      if agg.pagesViolating.length > 0 then .violation
      else if agg.pagesIncomplete.length > 0 then .incomplete
      else if agg.pagesManual.length > 0 && agg.pagesPass.length == 0 then .manual
      else if agg.pagesPass.length > 0 then .pass
      else .manual }

/-- One `{ url, collectedData }` entry of the optional raw-evidence list
passed to `aggregateResults`. -/
structure CollectedEntry where
  url : String
  collectedData : Option CollectedData
deriving Repr, DecidableEq

/-- JavaScript `Set.add` on a list: insert if absent, keep order. -/
def setInsert (s : List String) (h : String) : List String :=
  if s.contains h then s else s ++ [h]

/-- JavaScript `String.prototype.toLowerCase`, modelled characterwise
(the labels in play are plain text). -/
def jsToLower (s : String) : String :=
  ⟨s.data.map Char.toLower⟩

/-- JavaScript `String.prototype.trim`: strip leading and trailing
whitespace. -/
def jsTrim (s : String) : String :=
  ⟨((s.data.dropWhile Char.isWhitespace).reverse.dropWhile Char.isWhitespace).reverse⟩

/-- Process one link of `detectDuplicateLabels`' first loop: skip links
with a falsy or whitespace-only label, register the normalized label,
and add a truthy `href` to its destination set. -/
def labelMapAdd (m : List (String × List String)) (link : LinkData) :
    List (String × List String) :=
  match link.accessibleLabel with
  | none => m
  | some lbl =>
    if jsTrim lbl == "" then m
    else
      let normalized := jsTrim (jsToLower lbl)
      let m1 := if m.any (fun kv => kv.fst == normalized) then m else m ++ [(normalized, [])]
      match link.href with
      | some h =>
        if h == "" then m1
        else m1.map (fun kv => if kv.fst == normalized then (kv.fst, setInsert kv.snd h) else kv)
      | none => m1

/-- Group every link of every page by normalized accessible label. -/
def buildLabelMap (allCollectedData : List CollectedEntry) : List (String × List String) :=
  allCollectedData.foldl (fun m entry =>
    match entry.collectedData with
    | none => m
    | some cd => cd.links.foldl labelMapAdd m) []

/-- Labels whose destination set holds more than one distinct url. -/
def duplicateLabels (allCollectedData : List CollectedEntry) : List String :=
  (buildLabelMap allCollectedData).filterMap (fun kv =>
    if kv.snd.length > 1 then some kv.fst else none)

/-- Mutate the first element with the given selector: add the
`DUPLICATE_LABEL` flag when missing (the `find` + push of the source). -/
def markFirstMatching : List MappedElement → String → List MappedElement
  | [], _ => []
  | e :: rest, sel =>
    if e.selector == sel then
      (if e.flags.contains "DUPLICATE_LABEL" then e
       else { e with flags := e.flags ++ ["DUPLICATE_LABEL"] }) :: rest
    else e :: markFirstMatching rest sel

/-- Apply the duplicate-label mutation of one link to criterion 6.1:
flag the matching element (or push a fresh one) and upgrade a pass
status to violation. -/
def applyDuplicateFlag (dups : List String) (c : MappedCriterion) (link : LinkData) :
    MappedCriterion :=
  match link.accessibleLabel with
  | none => c
  | some lbl =>
    if lbl == "" then c
    else
      let normalized := jsTrim (jsToLower lbl)
      if dups.contains normalized then
        let elements :=
          if c.elements.any (fun e => e.selector == link.selector) then
            markFirstMatching c.elements link.selector
          else
            c.elements ++ [{ selector := link.selector, flags := ["DUPLICATE_LABEL"] }]
        let status : CriterionStatus := if c.status == .pass then .violation else c.status
        { c with elements := elements, status := status }
      else c

/-- Replace the first criterion with id 6.1 (the object `find` returned
and the source mutated). -/
def replaceFirst61 : List MappedCriterion → MappedCriterion → List MappedCriterion
  | [], _ => []
  | c :: rest, c61 =>
    if c.rgaaId == "6.1" then c61 :: rest else c :: replaceFirst61 rest c61

/-- Second loop of `detectDuplicateLabels` for one page: locate
criterion 6.1 and this page's raw evidence, then fold the link
mutations into it. -/
def updatePageDuplicates (allCollectedData : List CollectedEntry) (dups : List String)
    (page : MappedPage) : MappedPage :=
  match page.criteria.find? (fun c => c.rgaaId == "6.1") with
  | none => page
  | some c61 =>
    match allCollectedData.find? (fun d => d.url == page.url) with
    | none => page
    | some entry =>
      match entry.collectedData with
      | none => page
      | some cd =>
        let c61v := cd.links.foldl (applyDuplicateFlag dups) c61
        { page with criteria := replaceFirst61 page.criteria c61v }

/-- `detectDuplicateLabels`: returns the mutated pages (the source
mutates its `mappedPages` argument in place). -/
def detectDuplicateLabels (mappedPages : List MappedPage)
    (allCollectedData : List CollectedEntry) : List MappedPage :=
  let dups := duplicateLabels allCollectedData
  if dups.length == 0 then mappedPages
  else mappedPages.map (updatePageDuplicates allCollectedData dups)

/-- `aggregateResults`: initialise one entry per catalog criterion, fold
the pages, resolve final statuses, run duplicate detection when raw
evidence is supplied, and build the summary. The second component is the
(possibly mutated) page list, since the source mutates its argument. -/
def aggregateResults (mapping : RgaaMapping) (mappedPages : List MappedPage)
    (allCollectedData : Option (List CollectedEntry)) :
    AuditReportSummary × List MappedPage :=
  let folded := mappedPages.foldl foldPageIntoMap (initCriteriaMap mapping)
  let criteria := folded.map resolveStatus
  let pagesOut :=
    match allCollectedData with
    | some acd => detectDuplicateLabels mappedPages acd
    | none => mappedPages
  let topIssues :=
    (((criteria.filter (fun c => c.pagesViolating.length > 0)).mergeSort
        (fun a b => decide (b.pagesViolating.length ≤ a.pagesViolating.length))).take 5).map
      (fun c => { rgaaId := c.rgaaId, title := c.title, pagesAffected := c.pagesViolating.length })
  ({ totalCriteria := criteria.length
     automated := criteria.countP (fun c => !(c.status == .manual))
     violations := criteria.countP (fun c => c.status == .violation)
     passes := criteria.countP (fun c => c.status == .pass)
     manual := criteria.countP (fun c => c.status == .manual)
     incomplete := criteria.countP (fun c => c.status == .incomplete)
     topIssues := topIssues
     criteria := criteria }, pagesOut)

/-! ## Audit worker pool (`analyzer/analyzer.ts`)

The pool is embedded as a small-step state machine. JavaScript is
single-threaded: a worker runs atomically between `await` points, so one
step of the machine is one synchronous segment of the `worker` loop:
dequeue-and-start (up to the page-audit await), finish-page
(session update plus terminal-event push, after `auditPage` resolved,
up to the `saveSessionState` await), and persist (the checkpoint write).
A schedule — the list of worker indices chosen at each suspension
point — resolves the nondeterministic interleaving; `runPool` runs a
schedule to a state. The event buffer is drained FIFO by the generator
loop, so the yielded event stream is exactly the pushed order recorded
in the trace; the trace also records each checkpoint write with the
session snapshot it wrote. The external collaborators (navigation, rule
engine, data collector, clock) are an oracle `outcome`; `auditPage`
catches every failure and returns it as data, so it is total. -/

/-- A per-page audit result (`PageResult`). -/
structure PageResult where
  url : String
  auditedAt : String
  axeResults : Option AnalyzeResult
  collectedData : Option CollectedData
  error : Option String
deriving Repr, DecidableEq

/-- What the external page audit produces for a url: either engine
results and collected evidence, or a caught failure message (the two
return paths of `auditPage`). -/
inductive AuditOutcome where
  | success (auditedAt : String) (axeResults : AnalyzeResult) (collectedData : CollectedData)
  | failure (auditedAt : String) (message : String)
deriving Repr

/-- `auditPage`: never throws; failures become a `PageResult` with the
`error` field set. -/
def auditPage (outcome : String → AuditOutcome) (url : String) : PageResult :=
  match outcome url with
  | .success t a c =>
    { url := url, auditedAt := t, axeResults := some a, collectedData := some c, error := none }
  | .failure t m =>
    { url := url, auditedAt := t, axeResults := none, collectedData := none, error := some m }

/-- JavaScript truthiness of `string | null`: `null` and `""` are falsy. -/
def errTruthy : Option String → Bool
  | some e => e != ""
  | none => false

/-- The persisted session (`SessionState`); `results` is a string-keyed
record with insertion-order semantics. -/
structure SessionState where
  sessionId : String
  startedAt : String
  totalPages : Nat
  completedPages : List String
  pendingPages : List String
  results : List (String × PageResult)
deriving Repr, DecidableEq

/-- `state.results[url] = result`: record assignment. -/
def recordSet (m : List (String × PageResult)) (k : String) (v : PageResult) :
    List (String × PageResult) :=
  if m.any (fun kv => kv.fst == k) then
    m.map (fun kv => if kv.fst == k then (k, v) else kv)
  else m ++ [(k, v)]

/-- The terminal `AuditSummary`. -/
structure AuditSummary where
  totalPages : Nat
  completedPages : Nat
  failedPages : Nat
  startedAt : String
  finishedAt : String
deriving Repr, DecidableEq

/-- The four `ProgressEvent` variants. -/
inductive ProgressEvent where
  | pageStart (url : String)
  | pageComplete (url : String) (result : PageResult)
  | pageError (url : String) (error : String)
  | auditComplete (summary : AuditSummary)
deriving Repr, DecidableEq

/-- Phase of one worker between suspension points: at the top of its
loop, auditing a dequeued url, about to persist after a finished url,
or exited. -/
inductive WorkerPhase where
  | idle
  | running (url : String)
  | saving (url : String)
  | exited
deriving Repr, DecidableEq

def WorkerPhase.isExited : WorkerPhase → Bool
  | .exited => true
  | _ => false

/-- An observable action: a pushed progress event, or a checkpoint write
with the snapshot it wrote. -/
inductive TraceItem where
  | ev (event : ProgressEvent)
  | persist (sessionId : String) (state : SessionState)
deriving Repr, DecidableEq

/-- The whole pool state. -/
structure PoolState where
  queue : List String
  workers : List WorkerPhase
  session : SessionState
  trace : List TraceItem
  completeEmitted : Bool
deriving Repr, DecidableEq

/-- The fixed ceiling `3` in `Math.min(options.maxConcurrent ?? 2, 3)`. -/
def hardCeiling : Nat := 3

/-- Effective concurrency: `Math.min(options.maxConcurrent ?? 2, 3)`. -/
def effectiveConcurrency (maxConcurrent : Option Nat) : Nat :=
  min (maxConcurrent.getD 2) hardCeiling

/-- Modelled from the spec: the route that invokes the worker pool is
not among the analyzed sources; per the spec its configuration surface
(the requested concurrency) is "validated and clamped before reaching
the Worker Pool", so the value reaching `auditPages` — after the `?? 2`
default — is at least 1. -/
def ValidConcurrencyRequest (maxConcurrent : Option Nat) : Prop :=
  1 ≤ maxConcurrent.getD 2

/-- The initial session built by `auditPages`. -/
def initSession (urls : List String) (sessionId startedAt : String) : SessionState :=
  { sessionId := sessionId
    startedAt := startedAt
    totalPages := urls.length
    completedPages := []
    pendingPages := urls
    results := [] }

/-- The pool state right after `auditPages` created its contexts, queue
and session. -/
def initPool (urls : List String) (maxConcurrent : Option Nat) (sessionId startedAt : String) :
    PoolState :=
  { queue := urls
    workers := List.replicate (effectiveConcurrency maxConcurrent) .idle
    session := initSession urls sessionId startedAt
    trace := []
    completeEmitted := false }

/-- The terminal event for a finished page: `page_error` when
`result.error` is truthy, else `page_complete`. -/
def terminalEvent (url : String) (r : PageResult) : ProgressEvent :=
  match r.error with
  | some e => if e == "" then .pageComplete url r else .pageError url e
  | none => .pageComplete url r

/-- The session mutation after a page finished: move the url from
pending to completed and store the result. -/
def finishPage (s : SessionState) (url : String) (r : PageResult) : SessionState :=
  { s with pendingPages := s.pendingPages.filter (fun u => !(u == url))
           completedPages := s.completedPages ++ [url]
           results := recordSet s.results url r }

/-- Worker `i` dequeues `u`: shift the queue, push `page_start`, start
auditing (the synchronous prefix of a loop iteration). -/
def dequeueStep (st : PoolState) (i : Nat) (u : String) (rest : List String) : PoolState :=
  { st with queue := rest
            workers := st.workers.set i (.running u)
            trace := st.trace ++ [.ev (.pageStart u)] }

/-- Worker `i` finished auditing `u`: update the session, push the
terminal event, move on to the checkpoint write. Note the source pushes
the terminal event before `await saveSessionState`. -/
def finishStep (outcome : String → AuditOutcome) (st : PoolState) (i : Nat) (u : String) :
    PoolState :=
  let r := auditPage outcome u
  { st with session := finishPage st.session u r
            workers := st.workers.set i (.saving u)
            trace := st.trace ++ [.ev (terminalEvent u r)] }

/-- Worker `i` persists the session checkpoint and loops back. -/
def persistStep (st : PoolState) (i : Nat) : PoolState :=
  { st with workers := st.workers.set i .idle
            trace := st.trace ++ [.persist st.session.sessionId st.session] }

/-- One scheduled step of worker `i`: exit when the queue is empty at
the loop top, otherwise run the next synchronous segment. Indices out of
range or exited workers do nothing. -/
def stepWorker (outcome : String → AuditOutcome) (st : PoolState) (i : Nat) : PoolState :=
  match st.workers[i]? with
  | some .idle =>
    match st.queue with
    | [] => { st with workers := st.workers.set i .exited }
    | u :: rest => dequeueStep st i u rest
  | some (.running u) => finishStep outcome st i u
  | some (.saving _) => persistStep st i
  | _ => st

/-- The summary pushed with `audit_complete`. -/
def buildSummary (urls : List String) (s : SessionState) (finishedAt : String) : AuditSummary :=
  { totalPages := urls.length
    completedPages := s.completedPages.length
    failedPages := (s.results.map Prod.snd).countP (fun r => errTruthy r.error)
    startedAt := s.startedAt
    finishedAt := finishedAt }

/-- When every worker has exited and the terminal event was not pushed
yet, push exactly one `audit_complete` (the continuation of
`Promise.all`, which runs as soon as the last worker returns). -/
def maybeFinish (urls : List String) (finishedAt : String) (st : PoolState) : PoolState :=
  if st.workers.all WorkerPhase.isExited && !st.completeEmitted then
    { st with completeEmitted := true
              trace := st.trace ++ [.ev (.auditComplete (buildSummary urls st.session finishedAt))] }
  else st

/-- One schedule entry: a worker step followed by the completion check. -/
def runStep (outcome : String → AuditOutcome) (urls : List String) (finishedAt : String)
    (st : PoolState) (i : Nat) : PoolState :=
  maybeFinish urls finishedAt (stepWorker outcome st i)

/-- Run `auditPages` under a schedule from the initial state. -/
def runPool (outcome : String → AuditOutcome) (urls : List String) (maxConcurrent : Option Nat)
    (sessionId startedAt finishedAt : String) (schedule : List Nat) : PoolState :=
  schedule.foldl (runStep outcome urls finishedAt)
    (maybeFinish urls finishedAt (initPool urls maxConcurrent sessionId startedAt))

/-- A run is complete when every worker exited and the terminal
`audit_complete` was pushed. -/
def PoolFinal (st : PoolState) : Prop :=
  st.workers.all WorkerPhase.isExited = true ∧ st.completeEmitted = true

def TraceItem.isStartFor (u : String) : TraceItem → Bool
  | .ev (.pageStart v) => v == u
  | _ => false

def TraceItem.isStart : TraceItem → Bool
  | .ev (.pageStart _) => true
  | _ => false

def TraceItem.isTerminalFor (u : String) : TraceItem → Bool
  | .ev (.pageComplete v _) => v == u
  | .ev (.pageError v _) => v == u
  | _ => false

def TraceItem.isTerminal : TraceItem → Bool
  | .ev (.pageComplete _ _) => true
  | .ev (.pageError _ _) => true
  | _ => false

def TraceItem.isAuditComplete : TraceItem → Bool
  | .ev (.auditComplete _) => true
  | _ => false

def TraceItem.isPersistItem : TraceItem → Bool
  | .persist _ _ => true
  | _ => false

/-- A checkpoint write whose snapshot lists `u` as completed. -/
def TraceItem.isPersistWith (u : String) : TraceItem → Bool
  | .persist _ s => s.completedPages.contains u
  | _ => false

/-- `SplitProp P Q tr`: every position of `tr` satisfying `P` has a
prefix satisfying `Q`. Used to state ordering facts about the trace. -/
def SplitProp (P : TraceItem → Bool) (Q : List TraceItem → Prop) (tr : List TraceItem) : Prop :=
  ∀ j : Nat, ∀ hj : j < tr.length, P (tr.get ⟨j, hj⟩) = true → Q (tr.take j)

/-! ## Criterion evaluator claims -/

lemma filter_length_pos_iff_any {α : Type} (l : List α) (p : α → Bool) :
    (0 < (l.filter p).length) ↔ l.any p = true := by
  rw [List.length_pos_iff_exists_mem]
  simp [List.mem_filter, List.any_eq_true]

/-- C4: the per-page evaluator is a total function (it never throws);
for a `MANUAL_ONLY` criterion it returns the manual classification with
the flag-matching evidence elements attached whatever the engine result
is, and for an absent engine result it returns the manual classification
for every strategy. -/
theorem mapCriterion_manual_cases (criterion : RgaaCriterion)
    (axeResults : Option AnalyzeResult) (collectedData : Option CollectedData) :
    (criterion.evaluationStrategy = "MANUAL_ONLY" →
      mapCriterion criterion axeResults collectedData =
        mkMapped criterion .manual [] [] (extractElements criterion collectedData)) ∧
    mapCriterion criterion none collectedData =
      mkMapped criterion .manual [] [] (extractElements criterion collectedData) := by
  constructor
  · intro h
    simp [mapCriterion, h]
  · by_cases h : (criterion.evaluationStrategy == "MANUAL_ONLY") = true <;>
      simp [mapCriterion, h]

/-- Witness for C4 at a concrete manual-only criterion and a concrete
engine result. -/
def witManualCriterion : RgaaCriterion :=
  { rgaa := { id := "8.6", title := "Titre de page", theme := "Elements obligatoires" }
    wcag := []
    axeRules := ["document-title"]
    evaluationStrategy := "MANUAL_ONLY"
    dataCollectorFlags := ["TITLE_ABSENT", "TITLE_GENERIC"]
    heuristicPatterns := []
    altMaxLength := none
    limits := "" }

def witCollected : CollectedData :=
  { images := []
    links := []
    headings := { documentTitle := "accueil", headings := [], flags := ["TITLE_GENERIC"] } }

theorem mapCriterion_manual_cases_witness :
    mapCriterion witManualCriterion (some (.ok { violations := [], passes := [], incomplete := [] }))
        (some witCollected) =
      mkMapped witManualCriterion .manual [] []
        (extractElements witManualCriterion (some witCollected)) :=
  (mapCriterion_manual_cases witManualCriterion
    (some (.ok { violations := [], passes := [], incomplete := [] })) (some witCollected)).1 rfl

lemma mkMapped_status (criterion : RgaaCriterion) (s : CriterionStatus)
    (v : List AxeViolation) (i : List AxeIncomplete) (e : List MappedElement) :
    (mkMapped criterion s v i e).status = s := rfl

lemma mapAnyViolation_status (criterion : RgaaCriterion) (result : EngineResult)
    (elements : List MappedElement) :
    (mapAnyViolation criterion result elements).status =
      (if result.violations.any (fun v => criterion.axeRules.contains v.rule) then
        CriterionStatus.violation
      else if result.incomplete.any (fun i => criterion.axeRules.contains i.rule) then
        CriterionStatus.incomplete
      else CriterionStatus.pass) := by
  simp only [mapAnyViolation, mkMapped_status]
  by_cases hv : 0 < (result.violations.filter (fun v => criterion.axeRules.contains v.rule)).length
  · rw [if_pos hv, if_pos ((filter_length_pos_iff_any _ _).mp hv)]
  · rw [if_neg hv, if_neg (fun hc => hv ((filter_length_pos_iff_any _ _).mpr hc))]
    by_cases hi : 0 < (result.incomplete.filter (fun i => criterion.axeRules.contains i.rule)).length
    · rw [if_pos hi, if_pos ((filter_length_pos_iff_any _ _).mp hi)]
    · rw [if_neg hi, if_neg (fun hc => hi ((filter_length_pos_iff_any _ _).mpr hc))]

lemma mapAllPass_status (criterion : RgaaCriterion) (result : EngineResult)
    (elements : List MappedElement) :
    (mapAllPass criterion result elements).status =
      (if result.violations.any (fun v => criterion.axeRules.contains v.rule) then
        CriterionStatus.violation
      else if criterion.axeRules.all (fun rule => result.passes.any (fun p => p.rule == rule)) then
        CriterionStatus.pass
      else CriterionStatus.incomplete) := by
  simp only [mapAllPass]
  by_cases hv : 0 < (result.violations.filter (fun v => criterion.axeRules.contains v.rule)).length
  · rw [if_pos hv, if_pos ((filter_length_pos_iff_any _ _).mp hv), mkMapped_status]
  · rw [if_neg hv, if_neg (fun hc => hv ((filter_length_pos_iff_any _ _).mpr hc))]
    by_cases ha : criterion.axeRules.all (fun rule => result.passes.any (fun p => p.rule == rule)) = true
    · rw [if_pos ha, if_pos ha, mkMapped_status]
    · rw [if_neg ha, if_neg ha, mkMapped_status]

lemma mapCriterion_eq_anyViolation (criterion : RgaaCriterion) (result : EngineResult)
    (collectedData : Option CollectedData)
    (h : criterion.evaluationStrategy = "ANY_VIOLATION") :
    mapCriterion criterion (some (.ok result)) collectedData =
      mapAnyViolation criterion result (extractElements criterion collectedData) := by
  simp [mapCriterion, h]

lemma mapCriterion_eq_allPass (criterion : RgaaCriterion) (result : EngineResult)
    (collectedData : Option CollectedData)
    (h : criterion.evaluationStrategy = "ALL_PASS") :
    mapCriterion criterion (some (.ok result)) collectedData =
      mapAllPass criterion result (extractElements criterion collectedData) := by
  simp [mapCriterion, h]

/-- C5: for an `ANY_VIOLATION` criterion and a present, non-error engine
result, the classification is violation exactly when some reported
violation's rule belongs to the criterion's rule set; otherwise
incomplete exactly when some incomplete finding's rule does; otherwise
pass. -/
theorem mapCriterion_anyViolation (criterion : RgaaCriterion) (result : EngineResult)
    (collectedData : Option CollectedData)
    (h : criterion.evaluationStrategy = "ANY_VIOLATION") :
    ((mapCriterion criterion (some (.ok result)) collectedData).status = .violation ↔
      result.violations.any (fun v => criterion.axeRules.contains v.rule) = true) ∧
    (result.violations.any (fun v => criterion.axeRules.contains v.rule) = false →
      ((mapCriterion criterion (some (.ok result)) collectedData).status = .incomplete ↔
        result.incomplete.any (fun i => criterion.axeRules.contains i.rule) = true)) ∧
    (result.violations.any (fun v => criterion.axeRules.contains v.rule) = false →
      result.incomplete.any (fun i => criterion.axeRules.contains i.rule) = false →
      (mapCriterion criterion (some (.ok result)) collectedData).status = .pass) := by
  rw [mapCriterion_eq_anyViolation criterion result collectedData h]
  rw [mapAnyViolation_status]
  cases hv : result.violations.any (fun v => criterion.axeRules.contains v.rule) <;>
    cases hi : result.incomplete.any (fun i => criterion.axeRules.contains i.rule) <;>
      simp

/-- C6: for an `ALL_PASS` criterion and a present engine result, a
matched violation forces the violation status; otherwise the status is
pass exactly when every rule of the criterion appears among the passing
findings, and incomplete otherwise. -/
theorem mapCriterion_allPass (criterion : RgaaCriterion) (result : EngineResult)
    (collectedData : Option CollectedData)
    (h : criterion.evaluationStrategy = "ALL_PASS") :
    (result.violations.any (fun v => criterion.axeRules.contains v.rule) = true →
      (mapCriterion criterion (some (.ok result)) collectedData).status = .violation) ∧
    (result.violations.any (fun v => criterion.axeRules.contains v.rule) = false →
      ((mapCriterion criterion (some (.ok result)) collectedData).status = .pass ↔
        criterion.axeRules.all (fun rule => result.passes.any (fun p => p.rule == rule)) = true)) ∧
    (result.violations.any (fun v => criterion.axeRules.contains v.rule) = false →
      criterion.axeRules.all (fun rule => result.passes.any (fun p => p.rule == rule)) = false →
      (mapCriterion criterion (some (.ok result)) collectedData).status = .incomplete) := by
  rw [mapCriterion_eq_allPass criterion result collectedData h]
  rw [mapAllPass_status]
  cases hv : result.violations.any (fun v => criterion.axeRules.contains v.rule) <;>
    cases ha : criterion.axeRules.all (fun rule => result.passes.any (fun p => p.rule == rule)) <;>
      simp

def witAnyViolationCriterion : RgaaCriterion :=
  { rgaa := { id := "1.1", title := "Images", theme := "Images" }
    wcag := []
    axeRules := ["image-alt"]
    evaluationStrategy := "ANY_VIOLATION"
    dataCollectorFlags := ["ALT_ABSENT"]
    heuristicPatterns := []
    altMaxLength := some 80
    limits := "" }

def witPassResult : EngineResult :=
  { violations := []
    passes := [{ rule := "image-alt", description := "ok", elements := [] }]
    incomplete := [] }

theorem mapCriterion_anyViolation_witness :
    (mapCriterion witAnyViolationCriterion (some (.ok witPassResult)) none).status =
      CriterionStatus.pass :=
  (mapCriterion_anyViolation witAnyViolationCriterion witPassResult none rfl).2.2
    (by decide) (by decide)

def witAllPassCriterion : RgaaCriterion :=
  { rgaa := { id := "9.1", title := "Structuration", theme := "Structuration" }
    wcag := []
    axeRules := ["heading-order", "page-has-heading-one"]
    evaluationStrategy := "ALL_PASS"
    dataCollectorFlags := []
    heuristicPatterns := []
    altMaxLength := none
    limits := "" }

def witAllPassResult : EngineResult :=
  { violations := []
    passes := [{ rule := "heading-order", description := "ok", elements := [] },
               { rule := "page-has-heading-one", description := "ok", elements := [] }]
    incomplete := [] }

theorem mapCriterion_allPass_witness :
    (mapCriterion witAllPassCriterion (some (.ok witAllPassResult)) none).status =
      CriterionStatus.pass :=
  ((mapCriterion_allPass witAllPassCriterion witAllPassResult none rfl).2.1
    (by decide)).mpr (by decide)

/-! ## Aggregation claims -/

/-- The effect of one criterion of a page on the entry it matches
(the body of the aggregation loop, seen from a single entry). -/
def pushCriterion (url : String) (e : AggregatedCriterion) (c : MappedCriterion) :
    AggregatedCriterion :=
  if e.rgaaId == c.rgaaId then pushPageStatus e c.status url else e

/-- The effect of one whole page on a single entry. -/
def pushPage (e : AggregatedCriterion) (page : MappedPage) : AggregatedCriterion :=
  page.criteria.foldl (pushCriterion page.url) e

lemma foldl_map_comm {α β : Type} (cs : List β) (upd : β → α → α) (m : List α) :
    cs.foldl (fun acc c => acc.map (upd c)) m =
      m.map (fun e => cs.foldl (fun x c => upd c x) e) := by
  induction cs generalizing m with
  | nil => simp
  | cons c cs ih =>
    simp only [List.foldl_cons]
    rw [ih, List.map_map]
    rfl

lemma foldPageIntoMap_eq_map (m : List AggregatedCriterion) (page : MappedPage) :
    foldPageIntoMap m page = m.map (fun e => pushPage e page) := by
  unfold foldPageIntoMap pushPage pushCriterion
  exact foldl_map_comm page.criteria
    (fun c e => if e.rgaaId == c.rgaaId then pushPageStatus e c.status page.url else e) m

lemma foldPages_eq_map (pages : List MappedPage) (m : List AggregatedCriterion) :
    pages.foldl foldPageIntoMap m = m.map (fun e => pages.foldl pushPage e) := by
  induction pages generalizing m with
  | nil => simp
  | cons p ps ih =>
    simp only [List.foldl_cons]
    rw [foldPageIntoMap_eq_map, ih, List.map_map]
    rfl

/-- The urls one page contributes to the page set of status `s` of the
entry with id `id` (one occurrence per matching criterion). -/
def pageCollect (page : MappedPage) (id : String) (s : CriterionStatus) : List String :=
  page.criteria.filterMap (fun c =>
    if c.rgaaId == id && c.status == s then some page.url else none)

/-- All urls contributed across the pages, in page order. -/
def collectStatus (pages : List MappedPage) (id : String) (s : CriterionStatus) : List String :=
  pages.flatMap (fun p => pageCollect p id s)

/-- Some page classifies the criterion `id` with status `s`. -/
def pageHasStatus (pages : List MappedPage) (id : String) (s : CriterionStatus) : Bool :=
  pages.any (fun p => p.criteria.any (fun c => c.rgaaId == id && c.status == s))

lemma pushCriterion_eq (url : String) (e : AggregatedCriterion) (c : MappedCriterion) :
    pushCriterion url e c = { e with
      pagesViolating := e.pagesViolating ++
        (if c.rgaaId == e.rgaaId && c.status == .violation then [url] else [])
      pagesPass := e.pagesPass ++
        (if c.rgaaId == e.rgaaId && c.status == .pass then [url] else [])
      pagesManual := e.pagesManual ++
        (if c.rgaaId == e.rgaaId && c.status == .manual then [url] else [])
      pagesIncomplete := e.pagesIncomplete ++
        (if c.rgaaId == e.rgaaId && c.status == .incomplete then [url] else []) } := by
  by_cases hid : c.rgaaId = e.rgaaId
  · cases hcs : c.status <;> simp [pushCriterion, pushPageStatus, hid, hcs]
  · cases hcs : c.status <;> simp [pushCriterion, pushPageStatus, hid, Ne.symm hid, hcs]

lemma pushCriterion_foldl (url : String) (cs : List MappedCriterion) (e : AggregatedCriterion) :
    cs.foldl (pushCriterion url) e = { e with
      pagesViolating := e.pagesViolating ++ cs.filterMap (fun c =>
        if c.rgaaId == e.rgaaId && c.status == .violation then some url else none)
      pagesPass := e.pagesPass ++ cs.filterMap (fun c =>
        if c.rgaaId == e.rgaaId && c.status == .pass then some url else none)
      pagesManual := e.pagesManual ++ cs.filterMap (fun c =>
        if c.rgaaId == e.rgaaId && c.status == .manual then some url else none)
      pagesIncomplete := e.pagesIncomplete ++ cs.filterMap (fun c =>
        if c.rgaaId == e.rgaaId && c.status == .incomplete then some url else none) } := by
  induction cs generalizing e with
  | nil => simp
  | cons c cs ih =>
    simp only [List.foldl_cons]
    rw [ih, pushCriterion_eq]
    by_cases hid : c.rgaaId = e.rgaaId <;>
      cases hcs : c.status <;>
        simp [hcs, hid, Ne.symm, List.filterMap_cons, List.append_assoc]

lemma pushPage_eq (page : MappedPage) (e : AggregatedCriterion) :
    pushPage e page = { e with
      pagesViolating := e.pagesViolating ++ pageCollect page e.rgaaId .violation
      pagesPass := e.pagesPass ++ pageCollect page e.rgaaId .pass
      pagesManual := e.pagesManual ++ pageCollect page e.rgaaId .manual
      pagesIncomplete := e.pagesIncomplete ++ pageCollect page e.rgaaId .incomplete } :=
  pushCriterion_foldl page.url page.criteria e

lemma pushPage_foldl (pages : List MappedPage) (e : AggregatedCriterion) :
    pages.foldl pushPage e = { e with
      pagesViolating := e.pagesViolating ++ collectStatus pages e.rgaaId .violation
      pagesPass := e.pagesPass ++ collectStatus pages e.rgaaId .pass
      pagesManual := e.pagesManual ++ collectStatus pages e.rgaaId .manual
      pagesIncomplete := e.pagesIncomplete ++ collectStatus pages e.rgaaId .incomplete } := by
  induction pages generalizing e with
  | nil => simp [collectStatus]
  | cons p ps ih =>
    simp only [List.foldl_cons]
    rw [ih, pushPage_eq]
    simp [collectStatus, List.append_assoc]

lemma mem_criteriaMapSet (m : List AggregatedCriterion) (x e : AggregatedCriterion)
    (h : e ∈ criteriaMapSet m x) : e ∈ m ∨ e = x := by
  unfold criteriaMapSet at h
  by_cases hc : m.any (fun y => y.rgaaId == x.rgaaId) = true
  · rw [if_pos hc] at h
    rcases List.mem_map.mp h with ⟨y, hy, he⟩
    by_cases hyx : (y.rgaaId == x.rgaaId) = true
    · right
      rw [if_pos hyx] at he
      exact he.symm
    · left
      rw [if_neg hyx] at he
      rw [← he]
      exact hy
  · rw [if_neg hc] at h
    rcases List.mem_append.mp h with h | h
    · left
      exact h
    · right
      simpa using h

lemma mem_foldl_criteriaMapSet (cs : List RgaaCriterion) (m : List AggregatedCriterion)
    (e : AggregatedCriterion)
    (h : e ∈ cs.foldl (fun acc c => criteriaMapSet acc (initAggregated c)) m) :
    e ∈ m ∨ ∃ c ∈ cs, e = initAggregated c := by
  induction cs generalizing m with
  | nil =>
    left
    simpa using h
  | cons c cs ih =>
    rcases ih _ h with h1 | h1
    · rcases mem_criteriaMapSet _ _ _ h1 with h2 | h2
      · left
        exact h2
      · right
        exact ⟨c, by simp, h2⟩
    · right
      rcases h1 with ⟨d, hd, he⟩
      exact ⟨d, by simp [hd], he⟩

lemma mem_initCriteriaMap (mapping : RgaaMapping) (e : AggregatedCriterion)
    (h : e ∈ initCriteriaMap mapping) : ∃ c ∈ mapping.criteria, e = initAggregated c := by
  rcases mem_foldl_criteriaMapSet mapping.criteria [] e h with h1 | h1
  · simp at h1
  · exact h1

lemma collectStatus_length_pos (pages : List MappedPage) (id : String) (s : CriterionStatus) :
    (0 < (collectStatus pages id s).length) ↔ pageHasStatus pages id s = true := by
  rw [List.length_pos_iff_exists_mem]
  unfold collectStatus pageCollect pageHasStatus
  constructor
  · rintro ⟨u, hu⟩
    rcases List.mem_flatMap.mp hu with ⟨p, hp, hu2⟩
    rcases List.mem_filterMap.mp hu2 with ⟨c, hc, hcu⟩
    by_cases hcond : (c.rgaaId == id && c.status == s) = true
    · exact List.any_eq_true.mpr ⟨p, hp, List.any_eq_true.mpr ⟨c, hc, hcond⟩⟩
    · rw [if_neg hcond] at hcu
      exact absurd hcu (by simp)
  · intro h
    rcases List.any_eq_true.mp h with ⟨p, hp, h2⟩
    rcases List.any_eq_true.mp h2 with ⟨c, hc, hcond⟩
    refine ⟨p.url, List.mem_flatMap.mpr ⟨p, hp, List.mem_filterMap.mpr ⟨c, hc, ?_⟩⟩⟩
    rw [if_pos hcond]

lemma resolveStatus_fields (agg : AggregatedCriterion) :
    (resolveStatus agg).rgaaId = agg.rgaaId ∧
    (resolveStatus agg).pagesViolating = agg.pagesViolating ∧
    (resolveStatus agg).pagesPass = agg.pagesPass ∧
    (resolveStatus agg).pagesManual = agg.pagesManual ∧
    (resolveStatus agg).pagesIncomplete = agg.pagesIncomplete := by
  simp [resolveStatus]

/-- C3: in the aggregation result, each criterion's final status follows
the precedence over the per-page classifications: violation when some
page classifies it as violation; else incomplete when some page does;
else manual when some page is manual and no page passes; else pass when
some page passes; else manual. -/
theorem aggregate_status_precedence (mapping : RgaaMapping) (pages : List MappedPage)
    (allCollectedData : Option (List CollectedEntry)) :
    ∀ e ∈ (aggregateResults mapping pages allCollectedData).fst.criteria,
      e.status =
        (if pageHasStatus pages e.rgaaId .violation then .violation
         else if pageHasStatus pages e.rgaaId .incomplete then .incomplete
         else if pageHasStatus pages e.rgaaId .manual && !(pageHasStatus pages e.rgaaId .pass) then
           .manual
         else if pageHasStatus pages e.rgaaId .pass then .pass
         else .manual) := by
  intro e he
  have hcrit : (aggregateResults mapping pages allCollectedData).fst.criteria =
      (pages.foldl foldPageIntoMap (initCriteriaMap mapping)).map resolveStatus := rfl
  rw [hcrit, foldPages_eq_map, List.map_map] at he
  rcases List.mem_map.mp he with ⟨e0, _he0, hee⟩
  have hfold := pushPage_foldl pages e0
  set f := pages.foldl pushPage e0 with hf
  have hid : e.rgaaId = e0.rgaaId := by
    rw [← hee]
    simp only [Function.comp_apply]
    rw [(resolveStatus_fields f).1, hfold]
  have hini := mem_initCriteriaMap mapping e0 _he0
  rcases hini with ⟨c, _, he0c⟩
  have hV : f.pagesViolating = collectStatus pages e0.rgaaId .violation := by
    rw [hfold, he0c]
    simp [initAggregated]
  have hI : f.pagesIncomplete = collectStatus pages e0.rgaaId .incomplete := by
    rw [hfold, he0c]
    simp [initAggregated]
  have hM : f.pagesManual = collectStatus pages e0.rgaaId .manual := by
    rw [hfold, he0c]
    simp [initAggregated]
  have hP : f.pagesPass = collectStatus pages e0.rgaaId .pass := by
    rw [hfold, he0c]
    simp [initAggregated]
  have hstat : e.status =
      (if 0 < f.pagesViolating.length then CriterionStatus.violation
       else if 0 < f.pagesIncomplete.length then .incomplete
       else if 0 < f.pagesManual.length ∧ f.pagesPass.length = 0 then .manual
       else if 0 < f.pagesPass.length then .pass
       else .manual) := by
    rw [← hee]
    simp only [Function.comp_apply]
    simp [resolveStatus, Nat.pos_iff_ne_zero]
  rw [hstat, hid]
  have LV := collectStatus_length_pos pages e0.rgaaId .violation
  have LI := collectStatus_length_pos pages e0.rgaaId .incomplete
  have LM := collectStatus_length_pos pages e0.rgaaId .manual
  have LP := collectStatus_length_pos pages e0.rgaaId .pass
  rw [hV, hI, hM, hP]
  cases hbV : pageHasStatus pages e0.rgaaId .violation <;>
    cases hbI : pageHasStatus pages e0.rgaaId .incomplete <;>
      cases hbM : pageHasStatus pages e0.rgaaId .manual <;>
        cases hbP : pageHasStatus pages e0.rgaaId .pass <;>
          simp_all [Nat.pos_iff_ne_zero]

def c3WitEntry : AggregatedCriterion :=
  { rgaaId := "1.1"
    title := "Images"
    theme := "Images"
    status := .manual
    pagesViolating := []
    pagesPass := []
    pagesManual := []
    pagesIncomplete := [] }

theorem aggregate_status_precedence_witness :
    c3WitEntry.status =
      (if pageHasStatus [] c3WitEntry.rgaaId .violation then .violation
       else if pageHasStatus [] c3WitEntry.rgaaId .incomplete then .incomplete
       else if pageHasStatus [] c3WitEntry.rgaaId .manual &&
           !(pageHasStatus [] c3WitEntry.rgaaId .pass) then .manual
       else if pageHasStatus [] c3WitEntry.rgaaId .pass then .pass
       else .manual) :=
  aggregate_status_precedence { version := "4.1", criteria := [witAnyViolationCriterion] } [] none
    c3WitEntry (by decide)

/-- The link-label criterion used for concrete aggregation runs. -/
def crit61 : RgaaCriterion :=
  { rgaa := { id := "6.1", title := "Intitules de liens", theme := "Liens" }
    wcag := []
    axeRules := ["link-name"]
    evaluationStrategy := "ANY_VIOLATION"
    dataCollectorFlags := ["EMPTY_LABEL", "GENERIC_LABEL", "NEW_WINDOW_NO_WARNING", "DUPLICATE_LABEL"]
    heuristicPatterns := []
    altMaxLength := none
    limits := "" }

def demoMapping : RgaaMapping := { version := "4.1", criteria := [crit61] }

/-- C2 counterexample: aggregating zero pages over a one-criterion
catalog yields the single expected entry, but its final status is
manual (the no-classification fallback), not pass. -/
theorem aggregate_zero_pages_counterexample :
    (aggregateResults demoMapping [] none).fst.criteria.map (fun e => (e.rgaaId, e.status)) =
      [("6.1", CriterionStatus.manual)] ∧
    ((aggregateResults demoMapping [] none).fst.criteria.all
      (fun e => e.status == CriterionStatus.pass)) = false := by
  decide

lemma foldl_criteriaMapSet_append (cs : List RgaaCriterion) (m : List AggregatedCriterion)
    (hdisj : ∀ c ∈ cs, ∀ e ∈ m, e.rgaaId ≠ c.rgaa.id)
    (hnd : (cs.map (fun c => c.rgaa.id)).Nodup) :
    cs.foldl (fun acc c => criteriaMapSet acc (initAggregated c)) m =
      m ++ cs.map initAggregated := by
  induction cs generalizing m with
  | nil => simp
  | cons c cs ih =>
    simp only [List.foldl_cons]
    have hany : (m.any (fun y => y.rgaaId == (initAggregated c).rgaaId)) = false := by
      rw [List.any_eq_false]
      intro e he
      simp only [initAggregated, beq_iff_eq]
      exact hdisj c (by simp) e he
    have hset : criteriaMapSet m (initAggregated c) = m ++ [initAggregated c] := by
      unfold criteriaMapSet
      rw [if_neg (by simp [hany])]
    have hnd2 := hnd
    rw [List.map_cons, List.nodup_cons] at hnd2
    rw [hset, ih (m ++ [initAggregated c]) ?hd hnd2.2]
    · simp
    · intro d hd e he
      rcases List.mem_append.mp he with he | he
      · exact hdisj d (by simp [hd]) e he
      · simp only [List.mem_singleton] at he
        subst he
        simp only [initAggregated]
        intro hx
        exact hnd2.1 (hx ▸ List.mem_map.mpr ⟨d, hd, rfl⟩)

lemma initCriteriaMap_eq (mapping : RgaaMapping)
    (hids : (mapping.criteria.map (fun c => c.rgaa.id)).Nodup) :
    initCriteriaMap mapping = mapping.criteria.map initAggregated := by
  unfold initCriteriaMap
  rw [foldl_criteriaMapSet_append mapping.criteria [] (by simp) hids]
  simp

/-- C2 (amended): aggregating zero per-page classifications still yields
exactly one entry per catalog criterion, in catalog order (for a catalog
with distinct ids), but every entry's final status is the manual
fallback of the precedence rule, not pass. -/
theorem aggregate_zero_pages (mapping : RgaaMapping)
    (hids : (mapping.criteria.map (fun c => c.rgaa.id)).Nodup) :
    (aggregateResults mapping [] none).fst.criteria.map (fun e => e.rgaaId) =
      mapping.criteria.map (fun c => c.rgaa.id) ∧
    ∀ e ∈ (aggregateResults mapping [] none).fst.criteria, e.status = .manual := by
  have hcrit : (aggregateResults mapping [] none).fst.criteria =
      (initCriteriaMap mapping).map resolveStatus := rfl
  rw [hcrit, initCriteriaMap_eq mapping hids]
  constructor
  · rw [List.map_map, List.map_map]
    rfl
  · intro e he
    rw [List.map_map] at he
    rcases List.mem_map.mp he with ⟨c, _, hec⟩
    rw [← hec]
    rfl

theorem aggregate_zero_pages_witness :
    (aggregateResults demoMapping [] none).fst.criteria.map (fun e => e.rgaaId) =
      demoMapping.criteria.map (fun c => c.rgaa.id) ∧
    ∀ e ∈ (aggregateResults demoMapping [] none).fst.criteria, e.status = .manual :=
  aggregate_zero_pages demoMapping (by decide)

/-! ## Duplicate-label detection -/

lemma one_lt_length_of_two_mem {α : Type} {l : List α} {a b : α}
    (ha : a ∈ l) (hb : b ∈ l) (hab : a ≠ b) : 1 < l.length := by
  rcases List.append_of_mem ha with ⟨s, t, rfl⟩
  rw [List.mem_append, List.mem_cons] at hb
  rcases hb with hb | hb | hb
  · have h1 : 0 < s.length := List.length_pos_of_mem hb
    simp only [List.length_append, List.length_cons]
    omega
  · exact absurd hb.symm hab
  · have h1 : 0 < t.length := List.length_pos_of_mem hb
    simp only [List.length_append, List.length_cons]
    omega

lemma mem_setInsert_of_mem {s : List String} {x : String} (h : String)
    (hx : x ∈ s) : x ∈ setInsert s h := by
  unfold setInsert
  split
  · exact hx
  · exact List.mem_append_left _ hx

lemma mem_setInsert_self (s : List String) (h : String) : h ∈ setInsert s h := by
  unfold setInsert
  split
  · simpa using ‹s.contains h = true›
  · exact List.mem_append_right _ (by simp)

/-- The destination set registered for a normalized label. -/
def labelSetOf (m : List (String × List String)) (n : String) : List String :=
  ((m.find? (fun kv => kv.fst == n)).map Prod.snd).getD []

lemma find?_map_keyfix {β : Type} (g : (String × β) → (String × β))
    (hg : ∀ kv, (g kv).fst = kv.fst) (m : List (String × β)) (n : String) :
    (m.map g).find? (fun kv => kv.fst == n) =
      (m.find? (fun kv => kv.fst == n)).map g := by
  induction m with
  | nil => simp
  | cons kv m ih =>
    by_cases hk : (kv.fst == n) = true
    · have hgk : ((g kv).fst == n) = true := by rw [hg]; exact hk
      rw [List.map_cons, List.find?_cons_of_pos (p := fun (kv : String × β) => kv.fst == n) _ hgk,
        List.find?_cons_of_pos (p := fun (kv : String × β) => kv.fst == n) _ hk]
      simp
    · have hgk : ¬ (((g kv).fst == n) = true) := by rw [hg]; exact hk
      rw [List.map_cons, List.find?_cons_of_neg (p := fun (kv : String × β) => kv.fst == n) _ hgk,
        List.find?_cons_of_neg (p := fun (kv : String × β) => kv.fst == n) _ hk]
      exact ih

lemma labelMapAdd_mono (m : List (String × List String)) (link : LinkData)
    (n x : String) (hx : x ∈ labelSetOf m n) : x ∈ labelSetOf (labelMapAdd m link) n := by
  rcases hal : link.accessibleLabel with _ | lbl
  · simpa only [labelMapAdd, hal] using hx
  · simp only [labelMapAdd, hal]
    by_cases htr : (jsTrim lbl == "") = true
    · simpa only [if_pos htr] using hx
    · rw [if_neg htr]
      have hx1 : x ∈ labelSetOf
          (if (m.any fun kv => kv.fst == jsTrim (jsToLower lbl)) = true then m
           else m ++ [(jsTrim (jsToLower lbl), [])]) n := by
        by_cases hhas : (m.any fun kv => kv.fst == jsTrim (jsToLower lbl)) = true
        · rwa [if_pos hhas]
        · rw [if_neg hhas]
          unfold labelSetOf at hx ⊢
          rw [List.find?_append]
          rcases hf : m.find? (fun kv => kv.fst == n) with _ | kv
          · rw [hf] at hx
            simp at hx
          · rw [hf] at hx
            rw [hf]
            exact hx
      rcases hh : link.href with _ | h
      · exact hx1
      · dsimp only
        by_cases hhe : (h == "") = true
        · rw [if_pos hhe]
          exact hx1
        · rw [if_neg hhe]
          unfold labelSetOf at hx1 ⊢
          rw [find?_map_keyfix
            (fun kv => if (kv.fst == jsTrim (jsToLower lbl)) = true then (kv.fst, setInsert kv.snd h) else kv)
            (fun kv => by dsimp only; split <;> rfl) _ n]
          rcases hf : (if (m.any fun kv => kv.fst == jsTrim (jsToLower lbl)) = true then m
              else m ++ [(jsTrim (jsToLower lbl), [])]).find? (fun kv => kv.fst == n) with _ | kv
          · rw [hf] at hx1
            simp at hx1
          · rw [hf] at hx1
            rw [hf]
            dsimp only [Option.map, Option.getD] at hx1 ⊢
            split
            · exact mem_setInsert_of_mem h hx1
            · exact hx1

lemma labelMapAdd_adds (m : List (String × List String)) (link : LinkData)
    (lbl h : String) (hal : link.accessibleLabel = some lbl) (htr : ¬ (jsTrim lbl = ""))
    (hh : link.href = some h) (hne : ¬ (h = "")) :
    h ∈ labelSetOf (labelMapAdd m link) (jsTrim (jsToLower lbl)) := by
  simp only [labelMapAdd, hal]
  rw [if_neg (by simpa using htr), hh]
  dsimp only
  rw [if_neg (by simpa using hne)]
  have hfind : ∃ kv, ((if (m.any fun kv => kv.fst == jsTrim (jsToLower lbl)) = true then m
      else m ++ [(jsTrim (jsToLower lbl), [])]).find? (fun kv => kv.fst == jsTrim (jsToLower lbl))) = some kv
      ∧ kv.fst = jsTrim (jsToLower lbl) := by
    by_cases hhas : (m.any fun kv => kv.fst == jsTrim (jsToLower lbl)) = true
    · rw [if_pos hhas]
      have hsome : ((m.find? (fun kv => kv.fst == jsTrim (jsToLower lbl))).isSome) := by
        rw [List.find?_isSome]
        rcases List.any_eq_true.mp hhas with ⟨kv, hkv, hp⟩
        exact ⟨kv, hkv, hp⟩
      rcases ho : m.find? (fun kv => kv.fst == jsTrim (jsToLower lbl)) with _ | kv
      · rw [ho] at hsome
        simp at hsome
      · exact ⟨kv, ho, by simpa using List.find?_some ho⟩
    · rw [if_neg hhas]
      rw [List.find?_append]
      have hnone : m.find? (fun kv => kv.fst == jsTrim (jsToLower lbl)) = none := by
        rw [List.find?_eq_none]
        intro kv hkv hp
        exact hhas (List.any_eq_true.mpr ⟨kv, hkv, hp⟩)
      rw [hnone]
      refine ⟨(jsTrim (jsToLower lbl), []), ?_, rfl⟩
      simp
  rcases hfind with ⟨kv, hkv, hkey⟩
  unfold labelSetOf
  rw [find?_map_keyfix
    (fun kv => if (kv.fst == jsTrim (jsToLower lbl)) = true then (kv.fst, setInsert kv.snd h) else kv)
    (fun kv => by dsimp only; split <;> rfl) _ _]
  rw [hkv]
  dsimp only [Option.map, Option.getD]
  rw [if_pos (by simpa using hkey)]
  exact mem_setInsert_self kv.snd h

lemma links_foldl_mono (links : List LinkData) (m : List (String × List String))
    (n x : String) (hx : x ∈ labelSetOf m n) :
    x ∈ labelSetOf (links.foldl labelMapAdd m) n := by
  induction links generalizing m with
  | nil => exact hx
  | cons l ls ih => exact ih _ (labelMapAdd_mono m l n x hx)

lemma entries_foldl_mono (entries : List CollectedEntry) (m : List (String × List String))
    (n x : String) (hx : x ∈ labelSetOf m n) :
    x ∈ labelSetOf (entries.foldl (fun acc entry =>
      match entry.collectedData with
      | none => acc
      | some cd => cd.links.foldl labelMapAdd acc) m) n := by
  induction entries generalizing m with
  | nil => exact hx
  | cons e es ih =>
    apply ih
    rcases hcd : e.collectedData with _ | cd
    · simpa [hcd] using hx
    · simp only [hcd]
      exact links_foldl_mono cd.links m n x hx

lemma buildLabelMap_adds (acd : List CollectedEntry) (entry : CollectedEntry)
    (cd : CollectedData) (link : LinkData) (lbl h : String)
    (he : entry ∈ acd) (hcd : entry.collectedData = some cd) (hl : link ∈ cd.links)
    (hal : link.accessibleLabel = some lbl) (htr : ¬ (jsTrim lbl = ""))
    (hh : link.href = some h) (hne : ¬ (h = "")) :
    h ∈ labelSetOf (buildLabelMap acd) (jsTrim (jsToLower lbl)) := by
  unfold buildLabelMap
  rcases List.append_of_mem he with ⟨s, t, rfl⟩
  rw [List.foldl_append, List.foldl_cons]
  apply entries_foldl_mono
  simp only [hcd]
  rcases List.append_of_mem hl with ⟨s2, t2, hlinks⟩
  rw [hlinks, List.foldl_append, List.foldl_cons]
  apply links_foldl_mono
  exact labelMapAdd_adds _ link lbl h hal htr hh hne

lemma mem_duplicateLabels (acd : List CollectedEntry) (n x y : String)
    (hx : x ∈ labelSetOf (buildLabelMap acd) n) (hy : y ∈ labelSetOf (buildLabelMap acd) n)
    (hxy : x ≠ y) : n ∈ duplicateLabels acd := by
  unfold duplicateLabels
  unfold labelSetOf at hx hy
  rcases hf : (buildLabelMap acd).find? (fun kv => kv.fst == n) with _ | kv
  · rw [hf] at hx
    simp at hx
  · rw [hf] at hx hy
    dsimp only [Option.map, Option.getD] at hx hy
    have hmem : kv ∈ buildLabelMap acd := List.mem_of_find?_eq_some hf
    have hkey : kv.fst = n := by simpa using List.find?_some hf
    have hlen : 1 < kv.snd.length := one_lt_length_of_two_mem hx hy hxy
    apply List.mem_filterMap.mpr
    refine ⟨kv, hmem, ?_⟩
    rw [if_pos hlen, hkey]

lemma markFirstMatching_marks (els : List MappedElement) (sel : String)
    (h : ∃ el ∈ els, el.selector = sel) :
    ∃ el ∈ markFirstMatching els sel, el.selector = sel ∧ "DUPLICATE_LABEL" ∈ el.flags := by
  induction els with
  | nil => simp at h
  | cons e rest ih =>
    by_cases he : (e.selector == sel) = true
    · rw [markFirstMatching, if_pos he]
      by_cases hd : (e.flags.contains "DUPLICATE_LABEL") = true
      · rw [if_pos hd]
        exact ⟨e, by simp, by simpa using he, by simpa using hd⟩
      · rw [if_neg hd]
        exact ⟨{ e with flags := e.flags ++ ["DUPLICATE_LABEL"] }, by simp,
          by simpa using he, by simp⟩
    · rw [markFirstMatching, if_neg he]
      have h2 : ∃ el ∈ rest, el.selector = sel := by
        rcases h with ⟨el, hel, hsel⟩
        rcases List.mem_cons.mp hel with rfl | hel2
        · exact absurd (by simpa using hsel) he
        · exact ⟨el, hel2, hsel⟩
      rcases ih h2 with ⟨el, hel, hs, hf⟩
      exact ⟨el, List.mem_cons_of_mem _ hel, hs, hf⟩

lemma markFirstMatching_preserves (els : List MappedElement) (sel : String)
    (el : MappedElement) (hel : el ∈ els) :
    ∃ el2 ∈ markFirstMatching els sel, el2.selector = el.selector ∧
      ∀ f ∈ el.flags, f ∈ el2.flags := by
  induction els with
  | nil => simp at hel
  | cons e rest ih =>
    rcases List.mem_cons.mp hel with rfl | h2
    · by_cases he : (el.selector == sel) = true
      · rw [markFirstMatching, if_pos he]
        by_cases hd : (el.flags.contains "DUPLICATE_LABEL") = true
        · rw [if_pos hd]
          exact ⟨el, by simp, rfl, fun f hf => hf⟩
        · rw [if_neg hd]
          exact ⟨{ el with flags := el.flags ++ ["DUPLICATE_LABEL"] }, by simp, rfl,
            fun f hf => List.mem_append_left _ hf⟩
      · rw [markFirstMatching, if_neg he]
        exact ⟨el, by simp, rfl, fun f hf => hf⟩
    · by_cases he : (e.selector == sel) = true
      · rw [markFirstMatching, if_pos he]
        exact ⟨el, List.mem_cons_of_mem _ h2, rfl, fun f hf => hf⟩
      · rw [markFirstMatching, if_neg he]
        rcases ih h2 with ⟨el2, hel2, hs, hsub⟩
        exact ⟨el2, List.mem_cons_of_mem _ hel2, hs, hsub⟩

lemma applyDuplicateFlag_establishes (dups : List String) (c : MappedCriterion)
    (link : LinkData) (l : String) (hal : link.accessibleLabel = some l)
    (hlne : ¬ (l = "")) (hdup : jsTrim (jsToLower l) ∈ dups) :
    (∃ el ∈ (applyDuplicateFlag dups c link).elements,
      el.selector = link.selector ∧ "DUPLICATE_LABEL" ∈ el.flags) ∧
    (applyDuplicateFlag dups c link).status =
      (if c.status = .pass then .violation else c.status) ∧
    (applyDuplicateFlag dups c link).rgaaId = c.rgaaId := by
  simp only [applyDuplicateFlag, hal]
  rw [if_neg (by simpa using hlne)]
  rw [if_pos (by simpa using hdup)]
  dsimp only
  refine ⟨?_, ?_, rfl⟩
  · by_cases hany : (c.elements.any fun e => e.selector == link.selector) = true
    · rw [if_pos hany]
      apply markFirstMatching_marks
      rcases List.any_eq_true.mp hany with ⟨el, hel, hp⟩
      exact ⟨el, hel, by simpa using hp⟩
    · rw [if_neg hany]
      exact ⟨⟨link.selector, ["DUPLICATE_LABEL"]⟩, List.mem_append_right _ (by simp), rfl,
        by simp⟩
  · by_cases hst : (c.status == CriterionStatus.pass) = true
    · rw [if_pos hst, if_pos (by simpa using hst)]
    · rw [if_neg hst, if_neg (by simpa using hst)]

lemma applyDuplicateFlag_preserves (dups : List String) (c : MappedCriterion)
    (link : LinkData) (sel0 : String)
    (h : ∃ el ∈ c.elements, el.selector = sel0 ∧ "DUPLICATE_LABEL" ∈ el.flags) :
    ∃ el ∈ (applyDuplicateFlag dups c link).elements,
      el.selector = sel0 ∧ "DUPLICATE_LABEL" ∈ el.flags := by
  rcases hal : link.accessibleLabel with _ | lbl
  · simpa [applyDuplicateFlag, hal] using h
  · simp only [applyDuplicateFlag, hal]
    by_cases he : (lbl == "") = true
    · rw [if_pos he]
      exact h
    · rw [if_neg he]
      by_cases hdup : (dups.contains (jsTrim (jsToLower lbl))) = true
      · rw [if_pos hdup]
        dsimp only
        by_cases hany : (c.elements.any fun e => e.selector == link.selector) = true
        · rw [if_pos hany]
          rcases h with ⟨el, hel, hs, hf⟩
          rcases markFirstMatching_preserves c.elements link.selector el hel with
            ⟨el2, hel2, hs2, hsub⟩
          exact ⟨el2, hel2, hs2.trans hs, hsub _ hf⟩
        · rw [if_neg hany]
          rcases h with ⟨el, hel, hs, hf⟩
          exact ⟨el, List.mem_append_left _ hel, hs, hf⟩
      · rw [if_neg hdup]
        exact h

lemma applyDuplicateFlag_status (dups : List String) (c : MappedCriterion) (link : LinkData) :
    (applyDuplicateFlag dups c link).status = c.status ∨
    (c.status = .pass ∧ (applyDuplicateFlag dups c link).status = .violation) := by
  rcases hal : link.accessibleLabel with _ | lbl
  · left
    simp [applyDuplicateFlag, hal]
  · simp only [applyDuplicateFlag, hal]
    by_cases he : (lbl == "") = true
    · left
      rw [if_pos he]
    · rw [if_neg he]
      by_cases hdup : (dups.contains (jsTrim (jsToLower lbl))) = true
      · rw [if_pos hdup]
        dsimp only
        by_cases hst : (c.status == CriterionStatus.pass) = true
        · right
          exact ⟨by simpa using hst, by rw [if_pos hst]⟩
        · left
          rw [if_neg hst]
      · left
        rw [if_neg hdup]

lemma applyDuplicateFlag_rgaaId (dups : List String) (c : MappedCriterion) (link : LinkData) :
    (applyDuplicateFlag dups c link).rgaaId = c.rgaaId := by
  rcases hal : link.accessibleLabel with _ | lbl
  · simp [applyDuplicateFlag, hal]
  · simp only [applyDuplicateFlag, hal]
    by_cases he : (lbl == "") = true
    · rw [if_pos he]
    · rw [if_neg he]
      by_cases hdup : (dups.contains (jsTrim (jsToLower lbl))) = true
      · rw [if_pos hdup]
      · rw [if_neg hdup]

lemma links_foldl_flag (links : List LinkData) (dups : List String) (c : MappedCriterion)
    (sel0 : String)
    (h : ∃ el ∈ c.elements, el.selector = sel0 ∧ "DUPLICATE_LABEL" ∈ el.flags) :
    ∃ el ∈ (links.foldl (applyDuplicateFlag dups) c).elements,
      el.selector = sel0 ∧ "DUPLICATE_LABEL" ∈ el.flags := by
  induction links generalizing c with
  | nil => exact h
  | cons l ls ih => exact ih _ (applyDuplicateFlag_preserves dups c l sel0 h)

lemma links_foldl_status (links : List LinkData) (dups : List String) (c : MappedCriterion) :
    (links.foldl (applyDuplicateFlag dups) c).status = c.status ∨
    (c.status = .pass ∧ (links.foldl (applyDuplicateFlag dups) c).status = .violation) := by
  induction links generalizing c with
  | nil => exact Or.inl rfl
  | cons l ls ih =>
    rw [List.foldl_cons]
    rcases applyDuplicateFlag_status dups c l with h1 | ⟨h1, h2⟩
    · rcases ih (applyDuplicateFlag dups c l) with h3 | ⟨h3, h4⟩
      · exact Or.inl (h3.trans h1)
      · exact Or.inr ⟨h1 ▸ h3, h4⟩
    · rcases ih (applyDuplicateFlag dups c l) with h3 | ⟨h3, h4⟩
      · exact Or.inr ⟨h1, h3.trans h2⟩
      · rw [h2] at h3
        exact absurd h3 (by simp)

lemma links_foldl_rgaaId (links : List LinkData) (dups : List String) (c : MappedCriterion) :
    (links.foldl (applyDuplicateFlag dups) c).rgaaId = c.rgaaId := by
  induction links generalizing c with
  | nil => rfl
  | cons l ls ih =>
    rw [List.foldl_cons, ih, applyDuplicateFlag_rgaaId]

lemma links_foldl_upgrades (links : List LinkData) (dups : List String) (c : MappedCriterion)
    (link : LinkData) (l : String) (hl : link ∈ links)
    (hal : link.accessibleLabel = some l) (hlne : ¬ (l = ""))
    (hdup : jsTrim (jsToLower l) ∈ dups) :
    (∃ el ∈ (links.foldl (applyDuplicateFlag dups) c).elements,
      el.selector = link.selector ∧ "DUPLICATE_LABEL" ∈ el.flags) ∧
    (c.status = .pass → (links.foldl (applyDuplicateFlag dups) c).status = .violation) ∧
    (links.foldl (applyDuplicateFlag dups) c).rgaaId = c.rgaaId := by
  rcases List.append_of_mem hl with ⟨s, t, rfl⟩
  rw [List.foldl_append, List.foldl_cons]
  have hest := applyDuplicateFlag_establishes dups (s.foldl (applyDuplicateFlag dups) c)
    link l hal hlne hdup
  refine ⟨links_foldl_flag t dups _ _ hest.1, ?_, ?_⟩
  · intro hp
    have h2 : (applyDuplicateFlag dups (s.foldl (applyDuplicateFlag dups) c) link).status =
        .violation := by
      rw [hest.2.1]
      rcases links_foldl_status s dups c with h | ⟨_, h⟩
      · rw [h, hp]
        simp
      · rw [h]
        simp
    rcases links_foldl_status t dups
        (applyDuplicateFlag dups (s.foldl (applyDuplicateFlag dups) c) link) with h3 | ⟨h3, h4⟩
    · rw [h3, h2]
    · exact h4
  · rw [links_foldl_rgaaId, applyDuplicateFlag_rgaaId, links_foldl_rgaaId]

lemma replaceFirst61_find (cs : List MappedCriterion) (c0 x : MappedCriterion)
    (hfind : cs.find? (fun c => c.rgaaId == "6.1") = some c0)
    (hx : x.rgaaId = "6.1") :
    (replaceFirst61 cs x).find? (fun c => c.rgaaId == "6.1") = some x := by
  induction cs with
  | nil => simp at hfind
  | cons c rest ih =>
    by_cases hc : (c.rgaaId == "6.1") = true
    · rw [replaceFirst61, if_pos hc]
      rw [List.find?_cons_of_pos (p := fun (c : MappedCriterion) => c.rgaaId == "6.1") _ (by simpa using hx)]
    · rw [replaceFirst61, if_neg hc]
      rw [List.find?_cons_of_neg (p := fun (c : MappedCriterion) => c.rgaaId == "6.1") _ hc]
      apply ih
      rwa [List.find?_cons_of_neg (p := fun (c : MappedCriterion) => c.rgaaId == "6.1") _ hc] at hfind

lemma updatePageDuplicates_spec (acd : List CollectedEntry) (dups : List String)
    (page : MappedPage) (c61 : MappedCriterion)
    (hfind : page.criteria.find? (fun c => c.rgaaId == "6.1") = some c61)
    (entry : CollectedEntry) (cd : CollectedData)
    (hentry : acd.find? (fun d => d.url == page.url) = some entry)
    (hcd : entry.collectedData = some cd)
    (link : LinkData) (l : String) (hlink : link ∈ cd.links)
    (hal : link.accessibleLabel = some l) (hlne : ¬ (l = ""))
    (hdup : jsTrim (jsToLower l) ∈ dups) :
    (updatePageDuplicates acd dups page).url = page.url ∧
    ∃ c2, (updatePageDuplicates acd dups page).criteria.find?
        (fun c => c.rgaaId == "6.1") = some c2 ∧
      (∃ el ∈ c2.elements, el.selector = link.selector ∧ "DUPLICATE_LABEL" ∈ el.flags) ∧
      (c61.status = .pass → c2.status = .violation) := by
  unfold updatePageDuplicates
  rw [hfind, hentry]
  dsimp only
  rw [hcd]
  dsimp only
  have hup := links_foldl_upgrades cd.links dups c61 link l hlink hal hlne hdup
  have h61 : c61.rgaaId = "6.1" := by
    simpa using List.find?_some hfind
  refine ⟨rfl, cd.links.foldl (applyDuplicateFlag dups) c61, ?_, hup.1, hup.2.1⟩
  exact replaceFirst61_find page.criteria c61 _ hfind (hup.2.2.trans h61)

/-- C1 (amended): when the raw evidence contains one normalized
accessible label (case-insensitive, trimmed) with two distinct truthy
destinations, then for every audited page holding a link with that
label, the matching element of that page's own criterion-6.1
classification carries the duplicate-label flag, and that per-page
classification, when it was pass, is upgraded to violation in the
mutated page list the aggregation returns; the aggregation result
itself (the per-criterion summary) is computed before duplicate
detection and is unchanged by it. -/
theorem duplicate_label_detection (mapping : RgaaMapping) (pages : List MappedPage)
    (acd : List CollectedEntry)
    (entry1 entry2 : CollectedEntry) (cd1 cd2 : CollectedData) (link1 link2 : LinkData)
    (l1 l2 h1 h2 : String)
    (he1 : entry1 ∈ acd) (he2 : entry2 ∈ acd)
    (hcd1 : entry1.collectedData = some cd1) (hcd2 : entry2.collectedData = some cd2)
    (hl1 : link1 ∈ cd1.links) (hl2 : link2 ∈ cd2.links)
    (hlab1 : link1.accessibleLabel = some l1) (hlab2 : link2.accessibleLabel = some l2)
    (ht1 : ¬ (jsTrim l1 = "")) (ht2 : ¬ (jsTrim l2 = ""))
    (hnorm : jsTrim (jsToLower l1) = jsTrim (jsToLower l2))
    (hh1 : link1.href = some h1) (hh2 : link2.href = some h2)
    (hne1 : ¬ (h1 = "")) (hne2 : ¬ (h2 = "")) (hne : h1 ≠ h2)
    (page : MappedPage) (hpage : page ∈ pages)
    (c61 : MappedCriterion)
    (hfind : page.criteria.find? (fun c => c.rgaaId == "6.1") = some c61)
    (entry : CollectedEntry) (cd : CollectedData)
    (hentry : acd.find? (fun d => d.url == page.url) = some entry)
    (hcd : entry.collectedData = some cd)
    (link : LinkData) (hlink : link ∈ cd.links) (l : String)
    (hlab : link.accessibleLabel = some l) (hlne : ¬ (l = ""))
    (hn : jsTrim (jsToLower l) = jsTrim (jsToLower l1)) :
    (∃ page2 ∈ (aggregateResults mapping pages (some acd)).snd,
      page2.url = page.url ∧
      ∃ c2, page2.criteria.find? (fun c => c.rgaaId == "6.1") = some c2 ∧
        (∃ el ∈ c2.elements, el.selector = link.selector ∧ "DUPLICATE_LABEL" ∈ el.flags) ∧
        (c61.status = .pass → c2.status = .violation)) ∧
    (aggregateResults mapping pages (some acd)).fst =
      (aggregateResults mapping pages none).fst := by
  have hx1 : h1 ∈ labelSetOf (buildLabelMap acd) (jsTrim (jsToLower l1)) :=
    buildLabelMap_adds acd entry1 cd1 link1 l1 h1 he1 hcd1 hl1 hlab1 ht1 hh1 hne1
  have hx2 : h2 ∈ labelSetOf (buildLabelMap acd) (jsTrim (jsToLower l2)) :=
    buildLabelMap_adds acd entry2 cd2 link2 l2 h2 he2 hcd2 hl2 hlab2 ht2 hh2 hne2
  rw [← hnorm] at hx2
  have hdup : jsTrim (jsToLower l1) ∈ duplicateLabels acd :=
    mem_duplicateLabels acd _ h1 h2 hx1 hx2 hne
  have hdupl : jsTrim (jsToLower l) ∈ duplicateLabels acd := by
    rwa [hn]
  constructor
  · have hsnd : (aggregateResults mapping pages (some acd)).snd =
        detectDuplicateLabels pages acd := rfl
    have hlen := List.length_pos_of_mem hdup
    have hlenne : ¬ (((duplicateLabels acd).length == 0) = true) := by
      simp only [beq_iff_eq]
      omega
    have hdet : detectDuplicateLabels pages acd =
        pages.map (updatePageDuplicates acd (duplicateLabels acd)) := by
      simp only [detectDuplicateLabels]
      rw [if_neg hlenne]
    have hspec := updatePageDuplicates_spec acd (duplicateLabels acd) page c61 hfind
      entry cd hentry hcd link l hlink hlab hlne hdupl
    exact ⟨updatePageDuplicates acd (duplicateLabels acd) page,
      by rw [hsnd, hdet]; exact List.mem_map_of_mem _ hpage, hspec.1, hspec.2⟩
  · rfl

def demoLink1 : LinkData :=
  { selector := "a[href=\"/article-1\"]"
    tagName := "a"
    accessibleLabel := some "Lire la suite"
    href := some "/article-1"
    opensNewWindow := false
    hasNewWindowWarning := false
    flags := ["GENERIC_LABEL"] }

def demoLink2 : LinkData :=
  { selector := "a[href=\"/article-2\"]"
    tagName := "a"
    accessibleLabel := some "LIRE LA SUITE"
    href := some "/article-2"
    opensNewWindow := false
    hasNewWindowWarning := false
    flags := [] }

def demoHeadings : HeadingTree :=
  { documentTitle := "Page", headings := [], flags := [] }

def demoCd1 : CollectedData := { images := [], links := [demoLink1], headings := demoHeadings }

def demoCd2 : CollectedData := { images := [], links := [demoLink2], headings := demoHeadings }

def demoEngineResult : EngineResult := { violations := [], passes := [], incomplete := [] }

def demoPage1 : MappedPage :=
  mapPageResults demoMapping (some (.ok demoEngineResult)) (some demoCd1)
    "http://example.com/page1"

def demoPage2 : MappedPage :=
  mapPageResults demoMapping (some (.ok demoEngineResult)) (some demoCd2)
    "http://example.com/page2"

def demoEntry1 : CollectedEntry :=
  { url := "http://example.com/page1", collectedData := some demoCd1 }

def demoEntry2 : CollectedEntry :=
  { url := "http://example.com/page2", collectedData := some demoCd2 }

def demoEvidence : List CollectedEntry := [demoEntry1, demoEntry2]

def demoC61 : MappedCriterion :=
  mapCriterion crit61 (some (.ok demoEngineResult)) (some demoCd1)

/-- C1 counterexample: two pages whose links share the normalized label
"lire la suite" but point at "/article-1" and "/article-2"; criterion
6.1 passes on each page on its own. After aggregating with the raw
evidence, the mutated pages carry the duplicate flag, yet the entry for
6.1 in the aggregation result still has status pass: the upgrade to
violation never reaches the aggregation result. -/
theorem duplicate_label_counterexample :
    (jsTrim (jsToLower "Lire la suite") = jsTrim (jsToLower "LIRE LA SUITE")) ∧
    demoLink1.href ≠ demoLink2.href ∧
    demoPage1.criteria.map (fun c => (c.rgaaId, c.status)) =
      [("6.1", CriterionStatus.pass)] ∧
    demoPage2.criteria.map (fun c => (c.rgaaId, c.status)) =
      [("6.1", CriterionStatus.pass)] ∧
    ((aggregateResults demoMapping [demoPage1, demoPage2] (some demoEvidence)).snd.all
      (fun p => p.criteria.all (fun c =>
        c.elements.any (fun el => el.flags.contains "DUPLICATE_LABEL")))) = true ∧
    ((aggregateResults demoMapping [demoPage1, demoPage2]
        (some demoEvidence)).fst.criteria.find?
      (fun e => e.rgaaId == "6.1")).map (fun e => e.status) = some CriterionStatus.pass := by
  decide

theorem duplicate_label_detection_witness :
    (∃ page2 ∈ (aggregateResults demoMapping [demoPage1, demoPage2] (some demoEvidence)).snd,
      page2.url = demoPage1.url ∧
      ∃ c2, page2.criteria.find? (fun c => c.rgaaId == "6.1") = some c2 ∧
        (∃ el ∈ c2.elements, el.selector = demoLink1.selector ∧
          "DUPLICATE_LABEL" ∈ el.flags) ∧
        (demoC61.status = .pass → c2.status = .violation)) ∧
    (aggregateResults demoMapping [demoPage1, demoPage2] (some demoEvidence)).fst =
      (aggregateResults demoMapping [demoPage1, demoPage2] none).fst :=
  duplicate_label_detection demoMapping [demoPage1, demoPage2] demoEvidence
    demoEntry1 demoEntry2 demoCd1 demoCd2 demoLink1 demoLink2
    "Lire la suite" "LIRE LA SUITE" "/article-1" "/article-2"
    (by decide) (by decide) rfl rfl (by decide) (by decide) rfl rfl
    (by decide) (by decide) (by decide) rfl rfl
    (by decide) (by decide) (by decide)
    demoPage1 (by decide) demoC61 (by decide) demoEntry1 demoCd1 (by decide) rfl
    demoLink1 (by decide) "Lire la suite" rfl (by decide) (by decide)

/-! ## Pool invariant -/

lemma countP_append_one (p : TraceItem → Bool) (tr : List TraceItem) (y : TraceItem) :
    (tr ++ [y]).countP p = tr.countP p + (if p y then 1 else 0) := by
  rw [List.countP_append]
  simp [List.countP_cons]

lemma countP_set_of_get {α : Type} (l : List α) (i : Nat) (w v : α)
    (hw : l[i]? = some w) (p : α → Bool) :
    (l.set i v).countP p + (if p w then 1 else 0) = l.countP p + (if p v then 1 else 0) := by
  induction l generalizing i with
  | nil => simp at hw
  | cons a as ih =>
    cases i with
    | zero =>
      simp only [List.getElem?_cons_zero, Option.some_inj] at hw
      subst hw
      simp only [List.set_cons_zero, List.countP_cons]
      omega
    | succ n =>
      simp only [List.getElem?_cons_succ] at hw
      have hrec := ih n hw
      simp only [List.set_cons_succ, List.countP_cons]
      omega

lemma mem_set_of_ne {α : Type} {l : List α} {i : Nat} {v a : α}
    (h : a ∈ l.set i v) (hne : a ≠ v) : a ∈ l := by
  rcases List.mem_or_eq_of_mem_set h with h | h
  · exact h
  · exact absurd h hne

lemma splitProp_append {P : TraceItem → Bool} {Q : List TraceItem → Prop}
    {tr : List TraceItem} {y : TraceItem}
    (h : SplitProp P Q tr) (hy : P y = true → Q tr) :
    SplitProp P Q (tr ++ [y]) := by
  intro j hj hp
  rcases Nat.lt_or_ge j tr.length with hlt | hge
  · have hget : (tr ++ [y]).get ⟨j, hj⟩ = tr.get ⟨j, hlt⟩ := by
      simp only [List.get_eq_getElem]
      exact List.getElem_append_left hlt
    rw [hget] at hp
    rw [List.take_append_of_le_length (Nat.le_of_lt hlt)]
    exact h j hlt hp
  · have hj2 : j = tr.length := by
      rw [List.length_append, List.length_singleton] at hj
      omega
    subst hj2
    have hget : (tr ++ [y]).get ⟨tr.length, hj⟩ = y := by
      simp only [List.get_eq_getElem]
      exact List.getElem_concat_length tr y tr.length rfl hj
    rw [hget] at hp
    rw [List.take_left]
    exact hy hp

/-- The inductive invariant of the pool state machine, relative to the
original url list. -/
structure PoolInv (urls : List String) (st : PoolState) : Prop where
  queue_eq : st.queue = urls.drop (st.trace.countP TraceItem.isStart)
  starts_le : st.trace.countP TraceItem.isStart ≤ urls.length
  start_count : ∀ u, st.trace.countP (TraceItem.isStartFor u) =
    (urls.take (st.trace.countP TraceItem.isStart)).count u
  term_count : ∀ u, st.trace.countP (TraceItem.isTerminalFor u) =
    st.session.completedPages.count u
  term_total : st.trace.countP TraceItem.isTerminal = st.session.completedPages.length
  split_count : ∀ u, st.session.completedPages.count u +
    st.workers.countP (fun w => w == WorkerPhase.running u) =
    (urls.take (st.trace.countP TraceItem.isStart)).count u
  pending_eq : st.session.pendingPages =
    urls.filter (fun u => !(st.session.completedPages.contains u))
  results_keys : st.session.results.map Prod.fst = st.session.completedPages
  saving_completed : ∀ u, WorkerPhase.saving u ∈ st.workers →
    u ∈ st.session.completedPages
  persist_exists : ∀ u, u ∈ st.session.completedPages →
    WorkerPhase.saving u ∈ st.workers ∨
      1 ≤ st.trace.countP (TraceItem.isPersistWith u)
  exited_queue : WorkerPhase.exited ∈ st.workers → st.queue = []
  complete_false : st.completeEmitted = false →
    st.trace.countP TraceItem.isAuditComplete = 0
  complete_true : st.completeEmitted = true →
    st.workers.all WorkerPhase.isExited = true ∧
    st.trace.countP TraceItem.isAuditComplete = 1 ∧
    ∃ pre it, st.trace = pre ++ [it] ∧ TraceItem.isAuditComplete it = true
  persist_mono : ∀ sid s, TraceItem.persist sid s ∈ st.trace →
    ∀ u, u ∈ s.completedPages → u ∈ st.session.completedPages
  persist_keys : ∀ sid s, TraceItem.persist sid s ∈ st.trace →
    s.results.map Prod.fst = s.completedPages
  persist_after_term : ∀ u, SplitProp (TraceItem.isPersistWith u)
    (fun t1 => t1.countP (TraceItem.isTerminalFor u) = 1) st.trace
  term_after_start : ∀ u, SplitProp (TraceItem.isTerminalFor u)
    (fun t1 => t1.countP (TraceItem.isStartFor u) = 1) st.trace

lemma poolInv_init (urls : List String) (mc : Option Nat) (sid t0 : String) :
    PoolInv urls (initPool urls mc sid t0) where
  queue_eq := by simp [initPool]
  starts_le := by simp [initPool]
  start_count := by intro u; simp [initPool]
  term_count := by intro u; simp [initPool, initSession]
  term_total := by simp [initPool, initSession]
  split_count := by
    intro u
    have h0 : (List.replicate (effectiveConcurrency mc) WorkerPhase.idle).countP
        (fun w => w == WorkerPhase.running u) = 0 := by
      rw [List.countP_eq_zero]
      intro w hw
      rw [List.eq_of_mem_replicate hw]
      simp
    simp [initPool, initSession, h0]
  pending_eq := by
    simp only [initPool, initSession]
    refine (List.filter_eq_self.mpr ?_).symm
    intro u _
    simp
  results_keys := by simp [initPool, initSession]
  saving_completed := by
    intro u hw
    have h := List.eq_of_mem_replicate hw
    simp at h
  persist_exists := by
    intro u hu
    simp [initPool, initSession] at hu
  exited_queue := by
    intro hw
    have := List.eq_of_mem_replicate hw
    simp at this
  complete_false := by simp [initPool]
  complete_true := by simp [initPool]
  persist_mono := by
    intro sid2 s hmem
    simp [initPool] at hmem
  persist_keys := by
    intro sid2 s hmem
    simp [initPool] at hmem
  persist_after_term := by
    intro u j hj
    simp [initPool] at hj
  term_after_start := by
    intro u j hj
    simp [initPool] at hj

lemma mem_set_of_mem_of_get {α : Type} {l : List α} {i : Nat} {w v a : α}
    (ha : a ∈ l) (hw : l[i]? = some w) (hne : a ≠ w) : a ∈ l.set i v := by
  induction l generalizing i with
  | nil => simp at ha
  | cons b bs ih =>
    cases i with
    | zero =>
      simp only [List.getElem?_cons_zero, Option.some_inj] at hw
      subst hw
      rcases List.mem_cons.mp ha with rfl | ha2
      · exact absurd rfl hne
      · rw [List.set_cons_zero]
        exact List.mem_cons_of_mem _ ha2
    | succ n =>
      simp only [List.getElem?_cons_succ] at hw
      rcases List.mem_cons.mp ha with rfl | ha2
      · rw [List.set_cons_succ]
        exact List.mem_cons_self _ _
      · rw [List.set_cons_succ]
        exact List.mem_cons_of_mem _ (ih ha2 hw)

lemma mem_set_self_of_get {α : Type} {l : List α} {i : Nat} {w : α}
    (hw : l[i]? = some w) (v : α) : v ∈ l.set i v := by
  induction l generalizing i with
  | nil => simp at hw
  | cons b bs ih =>
    cases i with
    | zero => simp
    | succ n =>
      simp only [List.getElem?_cons_succ] at hw
      rw [List.set_cons_succ]
      exact List.mem_cons_of_mem _ (ih hw)

lemma stepWorker_frozen (outcome : String → AuditOutcome) (st : PoolState) (i : Nat)
    (hall : st.workers.all WorkerPhase.isExited = true) :
    stepWorker outcome st i = st := by
  unfold stepWorker
  rcases hw : st.workers[i]? with _ | w
  · rfl
  · have hex : WorkerPhase.isExited w = true :=
      List.all_eq_true.mp hall w (List.getElem?_mem hw)
    cases w
    · simp [WorkerPhase.isExited] at hex
    · simp [WorkerPhase.isExited] at hex
    · simp [WorkerPhase.isExited] at hex
    · rfl

lemma poolInv_maybeFinish (urls : List String) (fin : String) {st : PoolState}
    (h : PoolInv urls st) : PoolInv urls (maybeFinish urls fin st) := by
  unfold maybeFinish
  by_cases hc : (st.workers.all WorkerPhase.isExited && !st.completeEmitted) = true
  · rw [if_pos hc]
    obtain ⟨hall, hnotc⟩ := (Bool.and_eq_true _ _).mp hc
    have hemit : st.completeEmitted = false := by
      cases hcom : st.completeEmitted
      · rfl
      · rw [hcom] at hnotc
        simp at hnotc
    exact {
      queue_eq := by
        simp only [countP_append_one]
        simpa [TraceItem.isStart] using h.queue_eq
      starts_le := by
        simp only [countP_append_one]
        simpa [TraceItem.isStart] using h.starts_le
      start_count := by
        intro u
        simp only [countP_append_one]
        simpa [TraceItem.isStart, TraceItem.isStartFor] using h.start_count u
      term_count := by
        intro u
        simp only [countP_append_one]
        simpa [TraceItem.isTerminalFor] using h.term_count u
      term_total := by
        simp only [countP_append_one]
        simpa [TraceItem.isTerminal] using h.term_total
      split_count := by
        intro u
        simp only [countP_append_one]
        simpa [TraceItem.isStart] using h.split_count u
      pending_eq := h.pending_eq
      results_keys := h.results_keys
      saving_completed := h.saving_completed
      persist_exists := by
        intro u hu
        rcases h.persist_exists u hu with h1 | h1
        · exact Or.inl h1
        · right
          rw [countP_append_one]
          omega
      exited_queue := h.exited_queue
      complete_false := by
        intro hf
        simp at hf
      complete_true := by
        intro _
        refine ⟨hall, ?_, st.trace, _, rfl, rfl⟩
        rw [countP_append_one, h.complete_false hemit]
        simp [TraceItem.isAuditComplete]
      persist_mono := by
        intro sid2 s hmem u hu
        rcases List.mem_append.mp hmem with hmem | hmem
        · exact h.persist_mono sid2 s hmem u hu
        · simp at hmem
      persist_keys := by
        intro sid2 s hmem
        rcases List.mem_append.mp hmem with hmem | hmem
        · exact h.persist_keys sid2 s hmem
        · simp at hmem
      persist_after_term := fun u => splitProp_append (h.persist_after_term u)
        (fun hp => absurd hp (by simp [TraceItem.isPersistWith]))
      term_after_start := fun u => splitProp_append (h.term_after_start u)
        (fun hp => absurd hp (by simp [TraceItem.isTerminalFor])) }
  · rw [if_neg hc]
    exact h

lemma take_succ_of_drop_cons {α : Type} {l : List α} {k : Nat} {u : α} {rest : List α}
    (h : l.drop k = u :: rest) : l.take (k + 1) = l.take k ++ [u] := by
  have hk : k < l.length := by
    by_contra hk
    push_neg at hk
    rw [List.drop_eq_nil_of_le hk] at h
    simp at h
  have hsplit : l = l.take k ++ u :: rest := by
    conv_lhs => rw [← List.take_append_drop k l]
    rw [h]
  have hlen : (l.take k).length = k := by
    rw [List.length_take]
    omega
  conv_lhs => rw [hsplit]
  rw [List.take_append_eq_append_take, List.take_of_length_le (by omega), hlen]
  simp

lemma PoolInv.comp_count_le {urls : List String} {st : PoolState}
    (h : PoolInv urls st) (hnodup : urls.Nodup) (u : String) :
    st.session.completedPages.count u +
      st.workers.countP (fun w => w == WorkerPhase.running u) ≤ 1 := by
  have h1 := h.split_count u
  have h2 : (urls.take (st.trace.countP TraceItem.isStart)).count u ≤ urls.count u :=
    (List.take_sublist _ _).count_le u
  have h3 : urls.count u ≤ 1 := List.nodup_iff_count_le_one.mp hnodup u
  omega

lemma poolInv_exit {urls : List String} {st : PoolState} (h : PoolInv urls st) (i : Nat)
    (hw : st.workers[i]? = some .idle) (hq : st.queue = []) :
    PoolInv urls { st with workers := st.workers.set i .exited } where
  queue_eq := h.queue_eq
  starts_le := h.starts_le
  start_count := h.start_count
  term_count := h.term_count
  term_total := h.term_total
  split_count := by
    intro u
    have heq := countP_set_of_get st.workers i WorkerPhase.idle WorkerPhase.exited hw
      (fun w => w == WorkerPhase.running u)
    have := h.split_count u
    simp only at heq ⊢
    simp [WorkerPhase.isExited] at heq
    omega
  pending_eq := h.pending_eq
  results_keys := h.results_keys
  saving_completed := by
    intro u hmem
    exact h.saving_completed u (mem_set_of_ne hmem (by simp))
  persist_exists := by
    intro u hu
    rcases h.persist_exists u hu with h1 | h1
    · exact Or.inl (mem_set_of_mem_of_get h1 hw (by simp))
    · exact Or.inr h1
  exited_queue := fun _ => hq
  complete_false := h.complete_false
  complete_true := by
    intro hc
    exfalso
    have hall := (h.complete_true hc).1
    have := List.all_eq_true.mp hall WorkerPhase.idle (List.getElem?_mem hw)
    simp [WorkerPhase.isExited] at this
  persist_mono := h.persist_mono
  persist_keys := h.persist_keys
  persist_after_term := h.persist_after_term
  term_after_start := h.term_after_start

lemma poolInv_dequeue {urls : List String} {st : PoolState} (h : PoolInv urls st)
    (i : Nat) (u : String) (rest : List String)
    (hw : st.workers[i]? = some .idle) (hq : st.queue = u :: rest) :
    PoolInv urls (dequeueStep st i u rest) := by
  have hdrop : urls.drop (st.trace.countP TraceItem.isStart) = u :: rest := by
    rw [← h.queue_eq]
    exact hq
  have htake := take_succ_of_drop_cons hdrop
  have hklt : st.trace.countP TraceItem.isStart < urls.length := by
    by_contra hk
    push_neg at hk
    rw [List.drop_eq_nil_of_le hk] at hdrop
    simp at hdrop
  have hstart : TraceItem.isStart (TraceItem.ev (ProgressEvent.pageStart u)) = true := rfl
  refine {
    queue_eq := ?_
    starts_le := ?_
    start_count := ?_
    term_count := ?_
    term_total := ?_
    split_count := ?_
    pending_eq := h.pending_eq
    results_keys := h.results_keys
    saving_completed := ?_
    persist_exists := ?_
    exited_queue := ?_
    complete_false := ?_
    complete_true := ?_
    persist_mono := ?_
    persist_keys := ?_
    persist_after_term := ?_
    term_after_start := ?_ }
  · simp only [dequeueStep, countP_append_one, hstart, if_pos]
    rw [← List.drop_drop, hdrop]
    rfl
  · simp only [dequeueStep, countP_append_one, hstart, if_pos]
    omega
  · intro v
    simp only [dequeueStep, countP_append_one, hstart, if_pos]
    rw [htake, List.count_append]
    have hsc := h.start_count v
    by_cases hv : u = v
    · subst hv
      simp [TraceItem.isStartFor, hsc]
    · have h1 : TraceItem.isStartFor v (TraceItem.ev (ProgressEvent.pageStart u)) = false := by
        simp only [TraceItem.isStartFor, beq_eq_false_iff_ne, ne_eq]
        exact hv
      have h2 : List.count v [u] = 0 := by
        rw [List.count_eq_zero]
        simp only [List.mem_singleton]
        exact fun hc => hv hc.symm
      rw [h1, h2]
      simp [hsc]
  · intro v
    simp only [dequeueStep, countP_append_one]
    simpa [TraceItem.isTerminalFor] using h.term_count v
  · simp only [dequeueStep, countP_append_one]
    simpa [TraceItem.isTerminal] using h.term_total
  · intro v
    simp only [dequeueStep, countP_append_one, hstart, if_pos]
    rw [htake, List.count_append]
    have heq := countP_set_of_get st.workers i WorkerPhase.idle (WorkerPhase.running u) hw
      (fun w => w == WorkerPhase.running v)
    have hsp := h.split_count v
    by_cases hv : u = v
    · subst hv
      simp only [beq_iff_eq] at heq hsp ⊢
      simp at heq
      have hcnt : List.count u [u] = 1 := by simp
      omega
    · simp only [beq_iff_eq] at heq hsp ⊢
      simp [hv] at heq
      have h2 : List.count v [u] = 0 := by
        rw [List.count_eq_zero]
        simp only [List.mem_singleton]
        exact fun hc => hv hc.symm
      rw [h2]
      omega
  · intro v hmem
    simp only [dequeueStep] at hmem ⊢
    exact h.saving_completed v (mem_set_of_ne hmem (by simp))
  · intro v hv
    simp only [dequeueStep] at hv ⊢
    rcases h.persist_exists v hv with h1 | h1
    · exact Or.inl (mem_set_of_mem_of_get h1 hw (by simp))
    · right
      rw [countP_append_one]
      omega
  · intro hmem
    exfalso
    simp only [dequeueStep] at hmem
    have hqe := h.exited_queue (mem_set_of_ne hmem (by simp))
    rw [hq] at hqe
    simp at hqe
  · intro hf
    simp only [dequeueStep, countP_append_one] at hf ⊢
    simpa [TraceItem.isAuditComplete] using h.complete_false hf
  · intro hc
    exfalso
    simp only [dequeueStep] at hc
    have hall := (h.complete_true hc).1
    have hid := List.all_eq_true.mp hall WorkerPhase.idle (List.getElem?_mem hw)
    simp [WorkerPhase.isExited] at hid
  · intro sid2 s hmem v hv
    simp only [dequeueStep] at hmem hv ⊢
    rcases List.mem_append.mp hmem with hmem | hmem
    · exact h.persist_mono sid2 s hmem v hv
    · simp at hmem
  · intro sid2 s hmem
    simp only [dequeueStep] at hmem
    rcases List.mem_append.mp hmem with hmem | hmem
    · exact h.persist_keys sid2 s hmem
    · simp at hmem
  · intro v
    simp only [dequeueStep]
    exact splitProp_append (h.persist_after_term v)
      (fun hp => absurd hp (by simp [TraceItem.isPersistWith]))
  · intro v
    simp only [dequeueStep]
    exact splitProp_append (h.term_after_start v)
      (fun hp => absurd hp (by simp [TraceItem.isTerminalFor]))

lemma recordSet_keys_append (m : List (String × PageResult)) (k : String) (v : PageResult)
    (h : k ∉ m.map Prod.fst) : (recordSet m k v).map Prod.fst = m.map Prod.fst ++ [k] := by
  have hany : ¬ (m.any (fun kv => kv.fst == k) = true) := by
    rw [List.any_eq_true]
    rintro ⟨kv, hkv, hp⟩
    exact h (List.mem_map.mpr ⟨kv, hkv, by simpa using hp⟩)
  unfold recordSet
  rw [if_neg hany]
  simp

lemma isTerminalFor_terminalEvent (v u : String) (r : PageResult) :
    TraceItem.isTerminalFor v (.ev (terminalEvent u r)) = (u == v) := by
  unfold terminalEvent
  rcases r.error with _ | e
  · rfl
  · dsimp only
    split <;> rfl

lemma isTerminal_terminalEvent (u : String) (r : PageResult) :
    TraceItem.isTerminal (.ev (terminalEvent u r)) = true := by
  unfold terminalEvent
  rcases r.error with _ | e
  · rfl
  · dsimp only
    split <;> rfl

lemma isStart_terminalEvent (u : String) (r : PageResult) :
    TraceItem.isStart (.ev (terminalEvent u r)) = false := by
  unfold terminalEvent
  rcases r.error with _ | e
  · rfl
  · dsimp only
    split <;> rfl

lemma isStartFor_terminalEvent (v u : String) (r : PageResult) :
    TraceItem.isStartFor v (.ev (terminalEvent u r)) = false := by
  unfold terminalEvent
  rcases r.error with _ | e
  · rfl
  · dsimp only
    split <;> rfl

lemma isAuditComplete_terminalEvent (u : String) (r : PageResult) :
    TraceItem.isAuditComplete (.ev (terminalEvent u r)) = false := by
  unfold terminalEvent
  rcases r.error with _ | e
  · rfl
  · dsimp only
    split <;> rfl

lemma isPersistWith_terminalEvent (v u : String) (r : PageResult) :
    TraceItem.isPersistWith v (.ev (terminalEvent u r)) = false := by
  unfold terminalEvent
  rcases r.error with _ | e
  · rfl
  · dsimp only
    split <;> rfl

lemma poolInv_finish {urls : List String} {st : PoolState} (hnodup : urls.Nodup)
    (h : PoolInv urls st) (outcome : String → AuditOutcome) (i : Nat) (u : String)
    (hw : st.workers[i]? = some (.running u)) :
    PoolInv urls (finishStep outcome st i u) := by
  have hrun : WorkerPhase.running u ∈ st.workers := List.getElem?_mem hw
  have hrc : 1 ≤ st.workers.countP (fun w => w == WorkerPhase.running u) := by
    have hp : 0 < st.workers.countP (fun w => w == WorkerPhase.running u) :=
      List.countP_pos_iff.mpr ⟨_, hrun, by simp⟩
    omega
  have hle := h.comp_count_le hnodup u
  have hcomp0 : st.session.completedPages.count u = 0 := by omega
  have hnotin : u ∉ st.session.completedPages := by
    intro hmem
    have hpos := List.count_pos_iff.mpr hmem
    omega
  have htk1 : (urls.take (st.trace.countP TraceItem.isStart)).count u = 1 := by
    have hsp := h.split_count u
    omega
  refine {
    queue_eq := ?_
    starts_le := ?_
    start_count := ?_
    term_count := ?_
    term_total := ?_
    split_count := ?_
    pending_eq := ?_
    results_keys := ?_
    saving_completed := ?_
    persist_exists := ?_
    exited_queue := ?_
    complete_false := ?_
    complete_true := ?_
    persist_mono := ?_
    persist_keys := ?_
    persist_after_term := ?_
    term_after_start := ?_ }
  · simp only [finishStep, countP_append_one, isStart_terminalEvent]
    simpa using h.queue_eq
  · simp only [finishStep, countP_append_one, isStart_terminalEvent]
    simpa using h.starts_le
  · intro v
    simp only [finishStep, countP_append_one, isStart_terminalEvent, isStartFor_terminalEvent]
    simpa using h.start_count v
  · intro v
    simp only [finishStep, countP_append_one, isTerminalFor_terminalEvent, finishPage]
    rw [List.count_append]
    have htc := h.term_count v
    by_cases hv : u = v
    · subst hv
      simp [htc]
    · have h2 : List.count v [u] = 0 := by
        rw [List.count_eq_zero]
        simp only [List.mem_singleton]
        exact fun hc => hv hc.symm
      simp [htc, h2, hv]
  · simp only [finishStep, countP_append_one, isTerminal_terminalEvent, finishPage]
    simp [h.term_total]
  · intro v
    simp only [finishStep, countP_append_one, isStart_terminalEvent, finishPage,
      Bool.false_eq_true, if_false, Nat.add_zero]
    rw [List.count_append]
    have heq := countP_set_of_get st.workers i (WorkerPhase.running u) (WorkerPhase.saving u) hw
      (fun w => w == WorkerPhase.running v)
    have hsp := h.split_count v
    by_cases hv : u = v
    · subst hv
      simp only [beq_iff_eq] at heq hsp ⊢
      simp at heq
      have hcnt : List.count u [u] = 1 := by simp
      omega
    · simp only [beq_iff_eq] at heq hsp ⊢
      simp [hv] at heq
      have h2 : List.count v [u] = 0 := by
        rw [List.count_eq_zero]
        simp only [List.mem_singleton]
        exact fun hc => hv hc.symm
      rw [h2]
      omega
  · simp only [finishStep, finishPage]
    rw [h.pending_eq, List.filter_filter]
    apply List.filter_congr
    intro x hx
    by_cases h1 : x ∈ st.session.completedPages <;> by_cases h2 : x = u <;>
      simp [h1, h2, List.mem_append]
  · simp only [finishStep, finishPage]
    rw [recordSet_keys_append _ _ _ (by rw [h.results_keys]; exact hnotin), h.results_keys]
  · intro v hmem
    simp only [finishStep, finishPage] at hmem ⊢
    rcases List.mem_or_eq_of_mem_set hmem with hmem | hmem
    · exact List.mem_append_left _ (h.saving_completed v hmem)
    · have hvu : v = u := by
        simpa using congrArg (fun w => match w with
          | WorkerPhase.saving x => x
          | _ => v) hmem
      subst hvu
      exact List.mem_append_right _ (by simp)
  · intro v hv
    simp only [finishStep, finishPage] at hv ⊢
    rcases List.mem_append.mp hv with hv | hv
    · rcases h.persist_exists v hv with h1 | h1
      · left
        exact mem_set_of_mem_of_get h1 hw (by simp)
      · right
        rw [countP_append_one, isPersistWith_terminalEvent]
        simpa using h1
    · left
      simp only [List.mem_singleton] at hv
      subst hv
      exact mem_set_self_of_get hw _
  · intro hmem
    simp only [finishStep] at hmem ⊢
    exact h.exited_queue (mem_set_of_ne hmem (by simp))
  · intro hf
    simp only [finishStep, countP_append_one, isAuditComplete_terminalEvent] at hf ⊢
    simpa using h.complete_false hf
  · intro hc
    exfalso
    simp only [finishStep] at hc
    have hall := (h.complete_true hc).1
    have hx := List.all_eq_true.mp hall _ hrun
    simp [WorkerPhase.isExited] at hx
  · intro sid2 s hmem v hv
    simp only [finishStep, finishPage] at hmem ⊢
    rcases List.mem_append.mp hmem with hmem | hmem
    · exact List.mem_append_left _ (h.persist_mono sid2 s hmem v hv)
    · simp at hmem
  · intro sid2 s hmem
    simp only [finishStep] at hmem
    rcases List.mem_append.mp hmem with hmem | hmem
    · exact h.persist_keys sid2 s hmem
    · simp at hmem
  · intro v
    simp only [finishStep]
    exact splitProp_append (h.persist_after_term v)
      (fun hp => absurd hp (by rw [isPersistWith_terminalEvent]; simp))
  · intro v
    simp only [finishStep]
    apply splitProp_append (h.term_after_start v)
    intro hp
    rw [isTerminalFor_terminalEvent] at hp
    have hv : u = v := by simpa using hp
    subst hv
    rw [h.start_count u]
    exact htk1

lemma poolInv_persist {urls : List String} {st : PoolState} (hnodup : urls.Nodup)
    (h : PoolInv urls st) (i : Nat) (u : String)
    (hw : st.workers[i]? = some (.saving u)) :
    PoolInv urls (persistStep st i) := by
  have hsav : WorkerPhase.saving u ∈ st.workers := List.getElem?_mem hw
  refine {
    queue_eq := ?_
    starts_le := ?_
    start_count := ?_
    term_count := ?_
    term_total := ?_
    split_count := ?_
    pending_eq := h.pending_eq
    results_keys := h.results_keys
    saving_completed := ?_
    persist_exists := ?_
    exited_queue := ?_
    complete_false := ?_
    complete_true := ?_
    persist_mono := ?_
    persist_keys := ?_
    persist_after_term := ?_
    term_after_start := ?_ }
  · simp only [persistStep, countP_append_one]
    simpa [TraceItem.isStart] using h.queue_eq
  · simp only [persistStep, countP_append_one]
    simpa [TraceItem.isStart] using h.starts_le
  · intro v
    simp only [persistStep, countP_append_one]
    simpa [TraceItem.isStart, TraceItem.isStartFor] using h.start_count v
  · intro v
    simp only [persistStep, countP_append_one]
    simpa [TraceItem.isTerminalFor] using h.term_count v
  · simp only [persistStep, countP_append_one]
    simpa [TraceItem.isTerminal] using h.term_total
  · intro v
    simp only [persistStep, countP_append_one]
    have heq := countP_set_of_get st.workers i (WorkerPhase.saving u) WorkerPhase.idle hw
      (fun w => w == WorkerPhase.running v)
    have hsp := h.split_count v
    simp only [beq_iff_eq] at heq hsp ⊢
    simp at heq
    simp [TraceItem.isStart]
    omega
  · intro v hmem
    simp only [persistStep] at hmem ⊢
    exact h.saving_completed v (mem_set_of_ne hmem (by simp))
  · intro v hv
    simp only [persistStep] at hv ⊢
    right
    rw [countP_append_one]
    have hp : TraceItem.isPersistWith v
        (TraceItem.persist st.session.sessionId st.session) = true := by
      simp [TraceItem.isPersistWith]
      exact hv
    rw [hp]
    simp
  · intro hmem
    simp only [persistStep] at hmem ⊢
    exact h.exited_queue (mem_set_of_ne hmem (by simp))
  · intro hf
    simp only [persistStep, countP_append_one] at hf ⊢
    simpa [TraceItem.isAuditComplete] using h.complete_false hf
  · intro hc
    exfalso
    simp only [persistStep] at hc
    have hall := (h.complete_true hc).1
    have hx := List.all_eq_true.mp hall _ hsav
    simp [WorkerPhase.isExited] at hx
  · intro sid2 s hmem v hv
    simp only [persistStep] at hmem ⊢
    rcases List.mem_append.mp hmem with hmem | hmem
    · exact h.persist_mono sid2 s hmem v hv
    · simp only [List.mem_singleton] at hmem
      cases hmem
      exact hv
  · intro sid2 s hmem
    simp only [persistStep] at hmem
    rcases List.mem_append.mp hmem with hmem | hmem
    · exact h.persist_keys sid2 s hmem
    · simp only [List.mem_singleton] at hmem
      cases hmem
      exact h.results_keys
  · intro v
    simp only [persistStep]
    apply splitProp_append (h.persist_after_term v)
    intro hp
    simp only [TraceItem.isPersistWith, List.contains_eq_any_beq, List.any_eq_true] at hp
    rcases hp with ⟨w, hwmem, hwp⟩
    have hvw : v = w := by simpa using hwp
    subst hvw
    have hc1 : 1 ≤ st.session.completedPages.count v := List.count_pos_iff.mpr hwmem
    have hle := h.comp_count_le hnodup v
    rw [h.term_count v]
    omega
  · intro v
    simp only [persistStep]
    exact splitProp_append (h.term_after_start v)
      (fun hp => absurd hp (by simp [TraceItem.isTerminalFor]))

lemma poolInv_stepWorker {urls : List String} {st : PoolState} (hnodup : urls.Nodup)
    (h : PoolInv urls st) (outcome : String → AuditOutcome) (i : Nat) :
    PoolInv urls (stepWorker outcome st i) := by
  unfold stepWorker
  rcases hw : st.workers[i]? with _ | w
  · exact h
  · cases w with
    | idle =>
      rcases hq : st.queue with _ | ⟨u, rest⟩
      · have hres := poolInv_exit h i hw hq
        rw [hq] at hres
        exact hres
      · exact poolInv_dequeue h i u rest hw hq
    | running u => exact poolInv_finish hnodup h outcome i u hw
    | saving u => exact poolInv_persist hnodup h i u hw
    | exited => exact h

lemma poolInv_runStep {urls : List String} {st : PoolState} (hnodup : urls.Nodup)
    (h : PoolInv urls st) (outcome : String → AuditOutcome) (fin : String) (i : Nat) :
    PoolInv urls (runStep outcome urls fin st i) :=
  poolInv_maybeFinish urls fin (poolInv_stepWorker hnodup h outcome i)

lemma poolInv_foldl {urls : List String} (hnodup : urls.Nodup)
    (outcome : String → AuditOutcome) (fin : String) (schedule : List Nat)
    {st : PoolState} (h : PoolInv urls st) :
    PoolInv urls (schedule.foldl (runStep outcome urls fin) st) := by
  induction schedule generalizing st with
  | nil => exact h
  | cons i sched ih => exact ih (poolInv_runStep hnodup h outcome fin i)

lemma poolInv_runPool (urls : List String) (hnodup : urls.Nodup)
    (outcome : String → AuditOutcome) (mc : Option Nat) (sid t0 fin : String)
    (schedule : List Nat) :
    PoolInv urls (runPool outcome urls mc sid t0 fin schedule) :=
  poolInv_foldl hnodup outcome fin schedule
    (poolInv_maybeFinish urls fin (poolInv_init urls mc sid t0))

lemma stepWorker_workers_length (outcome : String → AuditOutcome) (st : PoolState) (i : Nat) :
    (stepWorker outcome st i).workers.length = st.workers.length := by
  unfold stepWorker
  rcases hw : st.workers[i]? with _ | w
  · rfl
  · cases w with
    | idle =>
      rcases hq : st.queue with _ | ⟨u, rest⟩
      · simp
      · simp [dequeueStep]
    | running u => simp [finishStep]
    | saving u => simp [persistStep]
    | exited => rfl

lemma maybeFinish_workers (urls : List String) (fin : String) (st : PoolState) :
    (maybeFinish urls fin st).workers = st.workers := by
  unfold maybeFinish
  split <;> rfl

lemma runPool_workers_length (outcome : String → AuditOutcome) (urls : List String)
    (mc : Option Nat) (sid t0 fin : String) (schedule : List Nat) :
    (runPool outcome urls mc sid t0 fin schedule).workers.length =
      effectiveConcurrency mc := by
  unfold runPool
  have hstep : ∀ (st : PoolState) (sched : List Nat),
      (sched.foldl (runStep outcome urls fin) st).workers.length = st.workers.length := by
    intro st sched
    induction sched generalizing st with
    | nil => rfl
    | cons i rest ih =>
      rw [List.foldl_cons, ih]
      unfold runStep
      rw [maybeFinish_workers, stepWorker_workers_length]
  rw [hstep, maybeFinish_workers]
  simp [initPool]

lemma pool_final_counts {urls : List String} {st : PoolState} (hnodup : urls.Nodup)
    (h : PoolInv urls st) (hfin : PoolFinal st) (hwne : st.workers ≠ []) :
    st.trace.countP TraceItem.isStart = urls.length ∧
    st.trace.countP TraceItem.isTerminal = urls.length ∧
    st.trace.countP TraceItem.isAuditComplete = 1 ∧
    (∃ pre it, st.trace = pre ++ [it] ∧ TraceItem.isAuditComplete it = true) ∧
    (∀ u, st.trace.countP (TraceItem.isStartFor u) = urls.count u ∧
      st.trace.countP (TraceItem.isTerminalFor u) = urls.count u) ∧
    (∀ u, st.session.completedPages.count u = urls.count u) := by
  obtain ⟨hall, hcom⟩ := hfin
  have hex : WorkerPhase.exited ∈ st.workers := by
    rcases hws : st.workers with _ | ⟨w, ws⟩
    · exact absurd hws hwne
    · have hx := List.all_eq_true.mp hall w (by rw [hws]; exact List.mem_cons_self _ _)
      cases w
      · simp [WorkerPhase.isExited] at hx
      · simp [WorkerPhase.isExited] at hx
      · simp [WorkerPhase.isExited] at hx
      · exact List.mem_cons_self _ _
  have hq : st.queue = [] := h.exited_queue hex
  have hdrop : urls.drop (st.trace.countP TraceItem.isStart) = [] := by
    rw [← h.queue_eq]
    exact hq
  have hk : st.trace.countP TraceItem.isStart = urls.length := by
    have hge := List.drop_eq_nil_iff.mp hdrop
    have := h.starts_le
    omega
  have hrun0 : ∀ u, st.workers.countP (fun w => w == WorkerPhase.running u) = 0 := by
    intro u
    rw [List.countP_eq_zero]
    intro w hwmem
    have hx := List.all_eq_true.mp hall w hwmem
    cases w
    · simp [WorkerPhase.isExited] at hx
    · simp [WorkerPhase.isExited] at hx
    · simp [WorkerPhase.isExited] at hx
    · simp
  have hcount : ∀ u, st.session.completedPages.count u = urls.count u := by
    intro u
    have hsp := h.split_count u
    rw [hk, List.take_length] at hsp
    have := hrun0 u
    omega
  have hperm : List.Perm st.session.completedPages urls := List.perm_iff_count.mpr hcount
  refine ⟨hk, ?_, (h.complete_true hcom).2.1, (h.complete_true hcom).2.2, ?_, hcount⟩
  · rw [h.term_total, hperm.length_eq]
  · intro u
    constructor
    · rw [h.start_count u, hk, List.take_length]
    · rw [h.term_count u, hcount u]

/-! ## Worker-pool claims -/

/-- C7: for every non-empty url list without duplicates and every
schedule that drives the pool to completion, the trace holds exactly one
page-start event per input url, exactly one terminal page event per
input url — both totals equal the input length — and exactly one
audit-complete event, which is the last element of the trace (the
event stream is the trace's events in order, drained FIFO by the
generator loop). -/
theorem pool_event_stream (outcome : String → AuditOutcome) (urls : List String)
    (mc : Option Nat) (sid t0 fin : String) (schedule : List Nat)
    (hnodup : urls.Nodup) (hne : urls ≠ [])
    (hcon : ValidConcurrencyRequest mc)
    (hfin : PoolFinal (runPool outcome urls mc sid t0 fin schedule)) :
    (runPool outcome urls mc sid t0 fin schedule).trace.countP TraceItem.isStart =
      urls.length ∧
    (runPool outcome urls mc sid t0 fin schedule).trace.countP TraceItem.isTerminal =
      urls.length ∧
    (∀ u ∈ urls,
      (runPool outcome urls mc sid t0 fin schedule).trace.countP (TraceItem.isStartFor u) = 1 ∧
      (runPool outcome urls mc sid t0 fin schedule).trace.countP
        (TraceItem.isTerminalFor u) = 1) ∧
    (runPool outcome urls mc sid t0 fin schedule).trace.countP TraceItem.isAuditComplete = 1 ∧
    (∃ it, (runPool outcome urls mc sid t0 fin schedule).trace.getLast? = some it ∧
      TraceItem.isAuditComplete it = true) := by
  have hinv := poolInv_runPool urls hnodup outcome mc sid t0 fin schedule
  have hwne : (runPool outcome urls mc sid t0 fin schedule).workers ≠ [] := by
    intro hempty
    have hlen := runPool_workers_length outcome urls mc sid t0 fin schedule
    rw [hempty] at hlen
    unfold effectiveConcurrency hardCeiling at hlen
    unfold ValidConcurrencyRequest at hcon
    simp at hlen
    omega
  obtain ⟨hks, hkt, hkc, ⟨pre, it, hpre, hit⟩, hper, _⟩ :=
    pool_final_counts hnodup hinv hfin hwne
  refine ⟨hks, hkt, ?_, hkc, it, ?_, hit⟩
  · intro u hu
    have hc1 : urls.count u = 1 := List.count_eq_one_of_mem hnodup hu
    obtain ⟨h1, h2⟩ := hper u
    rw [hc1] at h1 h2
    exact ⟨h1, h2⟩
  · rw [hpre]
    exact List.getLast?_concat _

def witOutcome : String → AuditOutcome := fun _ => .failure "t1" "boom"

theorem pool_event_stream_witness :
    (runPool witOutcome ["a", "b"] (some 2) "s7" "t0" "t1"
      [0, 1, 0, 1, 0, 1, 0, 1]).trace.countP TraceItem.isStart = (["a", "b"] : List String).length ∧
    (runPool witOutcome ["a", "b"] (some 2) "s7" "t0" "t1"
      [0, 1, 0, 1, 0, 1, 0, 1]).trace.countP TraceItem.isTerminal =
      (["a", "b"] : List String).length ∧
    (∀ u ∈ (["a", "b"] : List String),
      (runPool witOutcome ["a", "b"] (some 2) "s7" "t0" "t1"
        [0, 1, 0, 1, 0, 1, 0, 1]).trace.countP (TraceItem.isStartFor u) = 1 ∧
      (runPool witOutcome ["a", "b"] (some 2) "s7" "t0" "t1"
        [0, 1, 0, 1, 0, 1, 0, 1]).trace.countP (TraceItem.isTerminalFor u) = 1) ∧
    (runPool witOutcome ["a", "b"] (some 2) "s7" "t0" "t1"
      [0, 1, 0, 1, 0, 1, 0, 1]).trace.countP TraceItem.isAuditComplete = 1 ∧
    (∃ it, (runPool witOutcome ["a", "b"] (some 2) "s7" "t0" "t1"
        [0, 1, 0, 1, 0, 1, 0, 1]).trace.getLast? = some it ∧
      TraceItem.isAuditComplete it = true) :=
  pool_event_stream witOutcome ["a", "b"] (some 2) "s7" "t0" "t1" [0, 1, 0, 1, 0, 1, 0, 1]
    (by decide) (by decide) (show (1 : Nat) ≤ (some 2 : Option Nat).getD 2 by decide)
    ⟨by decide, by decide⟩

/-- C10: at every reachable state of an audit run over distinct urls
(every schedule prefix yields such a state), completed and pending
pages partition the original url set — each input url is in exactly one
of the two, with no duplicates in either — and the results record has
an entry for every completed url. -/
theorem pool_session_partition (outcome : String → AuditOutcome) (urls : List String)
    (mc : Option Nat) (sid t0 fin : String) (schedule : List Nat)
    (hnodup : urls.Nodup) :
    (∀ u, u ∈ urls ↔
      (u ∈ (runPool outcome urls mc sid t0 fin schedule).session.completedPages ∨
       u ∈ (runPool outcome urls mc sid t0 fin schedule).session.pendingPages)) ∧
    (∀ u, u ∈ (runPool outcome urls mc sid t0 fin schedule).session.completedPages →
      u ∉ (runPool outcome urls mc sid t0 fin schedule).session.pendingPages) ∧
    (runPool outcome urls mc sid t0 fin schedule).session.completedPages.Nodup ∧
    (runPool outcome urls mc sid t0 fin schedule).session.pendingPages.Nodup ∧
    (∀ u ∈ (runPool outcome urls mc sid t0 fin schedule).session.completedPages,
      ∃ r, (u, r) ∈ (runPool outcome urls mc sid t0 fin schedule).session.results) := by
  have h := poolInv_runPool urls hnodup outcome mc sid t0 fin schedule
  set st := runPool outcome urls mc sid t0 fin schedule with hst
  have hsub : ∀ u, u ∈ st.session.completedPages → u ∈ urls := by
    intro u hu
    have hc1 : 1 ≤ st.session.completedPages.count u := List.count_pos_iff.mpr hu
    have hsp := h.split_count u
    have htk : (urls.take (st.trace.countP TraceItem.isStart)).count u ≤ urls.count u :=
      (List.take_sublist _ _).count_le u
    have : 1 ≤ urls.count u := by omega
    exact List.count_pos_iff.mp (by omega)
  have hcle : ∀ u, st.session.completedPages.count u ≤ 1 := by
    intro u
    have hsp := h.split_count u
    have htk : (urls.take (st.trace.countP TraceItem.isStart)).count u ≤ urls.count u :=
      (List.take_sublist _ _).count_le u
    have hu1 : urls.count u ≤ 1 := List.nodup_iff_count_le_one.mp hnodup u
    omega
  refine ⟨?_, ?_, ?_, ?_, ?_⟩
  · intro u
    constructor
    · intro hu
      by_cases hc : u ∈ st.session.completedPages
      · exact Or.inl hc
      · right
        rw [h.pending_eq]
        rw [List.mem_filter]
        refine ⟨hu, ?_⟩
        simp [hc]
    · rintro (hu | hu)
      · exact hsub u hu
      · rw [h.pending_eq] at hu
        exact (List.mem_filter.mp hu).1
  · intro u hu
    rw [h.pending_eq]
    intro hmem
    have := (List.mem_filter.mp hmem).2
    simp [hu] at this
  · exact List.nodup_iff_count_le_one.mpr hcle
  · rw [h.pending_eq]
    exact hnodup.filter _
  · intro u hu
    have hk : u ∈ st.session.results.map Prod.fst := by
      rw [h.results_keys]
      exact hu
    rcases List.mem_map.mp hk with ⟨pair, hpair, hfst⟩
    exact ⟨pair.snd, by rw [← hfst]; exact hpair⟩

theorem pool_session_partition_witness :
    (∀ u, u ∈ (["x", "y"] : List String) ↔
      (u ∈ (runPool witOutcome ["x", "y"] (some 1) "s10" "t0" "t1"
        [0, 0, 0]).session.completedPages ∨
       u ∈ (runPool witOutcome ["x", "y"] (some 1) "s10" "t0" "t1"
        [0, 0, 0]).session.pendingPages)) ∧
    (∀ u, u ∈ (runPool witOutcome ["x", "y"] (some 1) "s10" "t0" "t1"
        [0, 0, 0]).session.completedPages →
      u ∉ (runPool witOutcome ["x", "y"] (some 1) "s10" "t0" "t1"
        [0, 0, 0]).session.pendingPages) ∧
    (runPool witOutcome ["x", "y"] (some 1) "s10" "t0" "t1"
      [0, 0, 0]).session.completedPages.Nodup ∧
    (runPool witOutcome ["x", "y"] (some 1) "s10" "t0" "t1"
      [0, 0, 0]).session.pendingPages.Nodup ∧
    (∀ u ∈ (runPool witOutcome ["x", "y"] (some 1) "s10" "t0" "t1"
        [0, 0, 0]).session.completedPages,
      ∃ r, (u, r) ∈ (runPool witOutcome ["x", "y"] (some 1) "s10" "t0" "t1"
        [0, 0, 0]).session.results) :=
  pool_session_partition witOutcome ["x", "y"] (some 1) "s10" "t0" "t1" [0, 0, 0] (by decide)

/-- The ordering asserted by the specification: before a page's
terminal event is pushed, a checkpoint write whose snapshot already
contains the page has happened. -/
def PersistBeforeTerminal (u : String) (tr : List TraceItem) : Prop :=
  ∀ j : Nat, ∀ hj : j < tr.length, TraceItem.isTerminalFor u (tr.get ⟨j, hj⟩) = true →
    1 ≤ (tr.take j).countP (TraceItem.isPersistWith u)

/-- C9 counterexample: a one-url, one-worker run. The worker moves the
url into the session and pushes the terminal event before the
checkpoint write, so no checkpoint precedes the terminal event. -/
theorem persist_order_counterexample :
    ¬ PersistBeforeTerminal "a"
      (runPool witOutcome ["a"] (some 1) "s9" "t0" "t1" [0, 0, 0, 0]).trace := by
  intro hcl
  have h := hcl 1 (by decide) (by decide)
  revert h
  decide

/-- C9 (amended): within one worker iteration the session update (move
the url from pending to completed, store the result) and the terminal
event push happen in one synchronous block, and the checkpoint write
happens only afterwards: in every complete run each input url has
exactly one terminal event, every persisted snapshot containing the url
comes strictly after that terminal event (never before it), at least
one such snapshot exists — the session is persisted after every
completed or failed page, not only at audit end — and every persisted
snapshot that lists the url as completed also stores its result. -/
theorem pool_persist_order (outcome : String → AuditOutcome) (urls : List String)
    (mc : Option Nat) (sid t0 fin : String) (schedule : List Nat)
    (hnodup : urls.Nodup) (hcon : ValidConcurrencyRequest mc)
    (hfin : PoolFinal (runPool outcome urls mc sid t0 fin schedule)) :
    ∀ u ∈ urls,
      (runPool outcome urls mc sid t0 fin schedule).trace.countP
        (TraceItem.isTerminalFor u) = 1 ∧
      SplitProp (TraceItem.isPersistWith u)
        (fun t1 => t1.countP (TraceItem.isTerminalFor u) = 1)
        (runPool outcome urls mc sid t0 fin schedule).trace ∧
      1 ≤ (runPool outcome urls mc sid t0 fin schedule).trace.countP
        (TraceItem.isPersistWith u) ∧
      (∀ sid2 s, TraceItem.persist sid2 s ∈
          (runPool outcome urls mc sid t0 fin schedule).trace →
        u ∈ s.completedPages → ∃ r, (u, r) ∈ s.results) := by
  have hinv := poolInv_runPool urls hnodup outcome mc sid t0 fin schedule
  set st := runPool outcome urls mc sid t0 fin schedule with hst
  have hwne : st.workers ≠ [] := by
    intro hempty
    have hlen := runPool_workers_length outcome urls mc sid t0 fin schedule
    rw [← hst, hempty] at hlen
    unfold effectiveConcurrency hardCeiling at hlen
    unfold ValidConcurrencyRequest at hcon
    simp at hlen
    omega
  obtain ⟨_, _, _, _, _, hcnt⟩ := pool_final_counts hnodup hinv hfin hwne
  intro u hu
  have hc1 : urls.count u = 1 := List.count_eq_one_of_mem hnodup hu
  have hterm : st.trace.countP (TraceItem.isTerminalFor u) = 1 := by
    rw [hinv.term_count u, hcnt u, hc1]
  have hcomp : u ∈ st.session.completedPages := by
    apply List.count_pos_iff.mp
    rw [hcnt u, hc1]
    omega
  have hnosave : ¬ (WorkerPhase.saving u ∈ st.workers) := by
    intro hmem
    have hx := List.all_eq_true.mp hfin.1 _ hmem
    simp [WorkerPhase.isExited] at hx
  refine ⟨hterm, hinv.persist_after_term u, ?_, ?_⟩
  · rcases hinv.persist_exists u hcomp with h1 | h1
    · exact absurd h1 hnosave
    · exact h1
  · intro sid2 s hmem hus
    have hk : u ∈ s.results.map Prod.fst := by
      rw [hinv.persist_keys sid2 s hmem]
      exact hus
    rcases List.mem_map.mp hk with ⟨pair, hpair, hfst⟩
    exact ⟨pair.snd, by rw [← hfst]; exact hpair⟩

theorem pool_persist_order_witness :
    (runPool witOutcome ["p", "q"] (some 1) "s9w" "t0" "t1"
      [0, 0, 0, 0, 0, 0, 0]).trace.countP (TraceItem.isTerminalFor "p") = 1 ∧
    SplitProp (TraceItem.isPersistWith "p")
      (fun t1 => t1.countP (TraceItem.isTerminalFor "p") = 1)
      (runPool witOutcome ["p", "q"] (some 1) "s9w" "t0" "t1" [0, 0, 0, 0, 0, 0, 0]).trace ∧
    1 ≤ (runPool witOutcome ["p", "q"] (some 1) "s9w" "t0" "t1"
      [0, 0, 0, 0, 0, 0, 0]).trace.countP (TraceItem.isPersistWith "p") ∧
    (∀ sid2 s, TraceItem.persist sid2 s ∈
        (runPool witOutcome ["p", "q"] (some 1) "s9w" "t0" "t1" [0, 0, 0, 0, 0, 0, 0]).trace →
      "p" ∈ s.completedPages → ∃ r, ("p", r) ∈ s.results) :=
  pool_persist_order witOutcome ["p", "q"] (some 1) "s9w" "t0" "t1" [0, 0, 0, 0, 0, 0, 0]
    (by decide) (show (1 : Nat) ≤ (some 1 : Option Nat).getD 2 by decide)
    ⟨by decide, by decide⟩ "p" (by decide)

/-- C8: the pool creates `min(maxConcurrent ?? 2, hardCeiling)` worker
contexts, where `hardCeiling = 3` is a fixed constant; for a validated
request (at least 1 after the default) the effective concurrency is
never below 1; and a run of 3 urls with requested concurrency 4 is
clamped to the ceiling 3 and still completes with 3 terminal page
events and one audit-complete event. -/
theorem effective_concurrency_spec (mc : Option Nat) (urls : List String)
    (sid t0 : String) (hcon : ValidConcurrencyRequest mc) :
    (initPool urls mc sid t0).workers.length = min (mc.getD 2) hardCeiling ∧
    1 ≤ effectiveConcurrency mc ∧
    effectiveConcurrency (some 4) = hardCeiling ∧
    (runPool witOutcome ["u1", "u2", "u3"] (some 4) "s8" "t0" "t1"
      [0, 1, 2, 0, 1, 2, 0, 1, 2, 0, 1, 2]).workers.length = 3 ∧
    (runPool witOutcome ["u1", "u2", "u3"] (some 4) "s8" "t0" "t1"
      [0, 1, 2, 0, 1, 2, 0, 1, 2, 0, 1, 2]).trace.countP TraceItem.isTerminal = 3 ∧
    (runPool witOutcome ["u1", "u2", "u3"] (some 4) "s8" "t0" "t1"
      [0, 1, 2, 0, 1, 2, 0, 1, 2, 0, 1, 2]).trace.countP TraceItem.isAuditComplete = 1 ∧
    PoolFinal (runPool witOutcome ["u1", "u2", "u3"] (some 4) "s8" "t0" "t1"
      [0, 1, 2, 0, 1, 2, 0, 1, 2, 0, 1, 2]) := by
  refine ⟨?_, ?_, by decide, by decide, by decide, by decide, by decide, by decide⟩
  · simp [initPool, effectiveConcurrency]
  · unfold effectiveConcurrency hardCeiling
    unfold ValidConcurrencyRequest at hcon
    omega

theorem effective_concurrency_spec_witness :
    (initPool ["u1"] (some 4) "s8w" "t0").workers.length = min ((some 4 : Option Nat).getD 2) hardCeiling ∧
    1 ≤ effectiveConcurrency (some 4) ∧
    effectiveConcurrency (some 4) = hardCeiling ∧
    (runPool witOutcome ["u1", "u2", "u3"] (some 4) "s8" "t0" "t1"
      [0, 1, 2, 0, 1, 2, 0, 1, 2, 0, 1, 2]).workers.length = 3 ∧
    (runPool witOutcome ["u1", "u2", "u3"] (some 4) "s8" "t0" "t1"
      [0, 1, 2, 0, 1, 2, 0, 1, 2, 0, 1, 2]).trace.countP TraceItem.isTerminal = 3 ∧
    (runPool witOutcome ["u1", "u2", "u3"] (some 4) "s8" "t0" "t1"
      [0, 1, 2, 0, 1, 2, 0, 1, 2, 0, 1, 2]).trace.countP TraceItem.isAuditComplete = 1 ∧
    PoolFinal (runPool witOutcome ["u1", "u2", "u3"] (some 4) "s8" "t0" "t1"
      [0, 1, 2, 0, 1, 2, 0, 1, 2, 0, 1, 2]) :=
  effective_concurrency_spec (some 4) ["u1"] "s8w" "t0"
    (show (1 : Nat) ≤ (some 4 : Option Nat).getD 2 by decide)
